import Mathlib

/-!
Verification of the core of the IDR (identity resolution) pipeline.

Shallow embedding of the pipeline stages:
* `GraphStage.build_edges` and `GraphStage.label_propagation`
  (src/idr_core/stages/graph.py) — anchor-based edge construction over
  identifier groups and synchronous min-label propagation; SQL tables are
  modelled as lists of rows, entity keys as an arbitrary linearly ordered
  type (`VARCHAR` keys are ordered lexicographically, which is a linear
  order), `MIN`/`MAX` aggregates as folds.
* `GraphStage.run_fuzzy_matching` — blocking, deterministic hash-ordered
  pairing and inclusive threshold comparison, with the score expression,
  blocking-key expression and MD5 hash abstracted as functions.
* `OutputStage.compute_confidence_scores` and
  `OutputStage.generate_dry_run_output` (src/idr_core/stages/output.py) —
  SQL FLOAT arithmetic is modelled with rationals, `ROUND(x, 3)` as
  round-half-up at three decimals (identical to SQL round-half-away for
  the non-negative values produced here).
* the metadata validators of src/idr_core/config.py — `validate_sql_expr`
  models the Python regex `_DANGEROUS_SQL_RE` as an executable scanner
  over character lists (ASCII reading of `\w` and `\s`),
  `validate_integer` / `validate_float` act on rational inputs.
* `PreflightStage.run` concurrency handling and the `IDRRunner.run`
  prefix (src/idr_core/stages/preflight.py, src/idr_core/runner.py) —
  timestamps are seconds as integers, `INTERVAL '4 hours'` = 14400.
* identifier canonicalization of `ExtractionStage.extract_identifiers`
  (src/idr_core/stages/extraction.py) — SQL `LOWER`/`UPPER` on ASCII.
-/

namespace IDR

/-- Fold of `min` over a list with an initial value; models the SQL `MIN`
aggregate of a non-empty group whose first row is the initial value. -/
def listMin {α : Type} [LinearOrder α] (a : α) (l : List α) : α :=
  l.foldl min a

/-- Fold of `max` over a list with an initial value; models the SQL `MAX`
aggregate of a non-empty group whose first row is the initial value. -/
def listMax {α : Type} [LinearOrder α] (a : α) (l : List α) : α :=
  l.foldl max a

section LabelPropagation

variable {α : Type} [LinearOrder α]

/-- The undirected edge view `idr_work.lp_edges`: both directions of every
edge of `idr_work.edges_new` (graph.py lines 124-129). -/
def lpEdges (E : List (α × α)) : List (α × α) :=
  E ++ E.map (fun p => (p.2, p.1))

/-- Neighbors of `v`: destinations of `lp_edges` rows whose source is `v`
(the join `e.dst = l2.entity_key` grouped by `e.src` in graph.py
lines 139-149). -/
def nbrs (E : List (α × α)) (v : α) : List α :=
  (lpEdges E).filterMap (fun p => if p.1 = v then some p.2 else none)

/-- One synchronous label-propagation step (graph.py lines 137-150):
every entity's new label is the minimum of its own label and its
neighbors' labels, computed simultaneously from the previous labels. -/
def lpStep (E : List (α × α)) (lbl : α → α) (v : α) : α :=
  listMin (lbl v) ((nbrs E v).map lbl)

/-- The label-propagation loop of `GraphStage.label_propagation`
(graph.py lines 131-170): up to the given fuel, apply one synchronous
step and stop early when no label of an entity of `V` changed. `V` is
the entity set `idr_work.entities_delta`, the initial labels are the
identity (each entity starts with itself as label). -/
def lpRun (V : List α) (E : List (α × α)) (lbl : α → α) : Nat → (α → α)
  | 0 => lbl
  | n + 1 =>
      let lbl' := lpStep E lbl
      if ∃ v ∈ V, lbl v ≠ lbl' v then lpRun V E lbl' n else lbl'

/-- Pure synchronous iteration of the propagation step, without the
early-exit convergence check: the labels after `n` loop iterations. -/
def lpIter (E : List (α × α)) (lbl : α → α) : Nat → (α → α)
  | 0 => lbl
  | n + 1 => lpStep E (lpIter E lbl n)

/-- Adjacency in the undirected edge view. -/
def lpAdj (E : List (α × α)) (v w : α) : Prop :=
  (v, w) ∈ lpEdges E

/-- Connectivity along the undirected edge view (the connected-component
relation of the edge set). -/
def Reach (E : List (α × α)) (v w : α) : Prop :=
  Relation.ReflTransGen (lpAdj E) v w

end LabelPropagation

section BuildEdges

variable {α : Type}

/-- A row of `idr_work.identifiers_all` (one extracted identifier per
entity, with the owning rule's `max_group_size` attached). -/
structure IdRow (α : Type) where
  entity_key : α
  identifier_type : String
  identifier_value_norm : String
  max_group_size : Int
deriving DecidableEq

/-- A row of `idr_work.edges_new` produced by `GraphStage.build_edges`. -/
structure IdEdge (α : Type) where
  left_entity_key : α
  right_entity_key : α
  identifier_type : String
  identifier_value_norm : String
deriving DecidableEq

/-- A row of the `idr_out.skipped_identifier_groups` audit log
(graph.py lines 54-77; the `run_id`, `sample_entity_keys` and timestamp
columns are omitted as irrelevant to grouping). -/
structure SkippedGroup where
  identifier_type : String
  identifier_value_norm : String
  group_size : Int
  max_allowed : Int
  reason : String
deriving DecidableEq

/-- The identifier group of `(t, v)`: all rows of `identifiers_all`
sharing that identifier type and normalized value (the `GROUP BY` of
graph.py lines 22-31). -/
def groupRows (rows : List (IdRow α)) (t v : String) : List (IdRow α) :=
  rows.filter (fun r => decide (r.identifier_type = t ∧ r.identifier_value_norm = v))

/-- `MIN(entity_key)` of a group: its anchor (graph.py line 27). -/
def anchorKey [LinearOrder α] : List (IdRow α) → Option α
  | [] => none
  | r :: rest => some (listMin r.entity_key (rest.map (·.entity_key)))

/-- `MAX(max_group_size)` of a group (graph.py line 28). -/
def maxAllowed : List (IdRow α) → Option Int
  | [] => none
  | r :: rest => some (listMax r.max_group_size (rest.map (·.max_group_size)))

/-- `GraphStage.build_edges` (graph.py lines 20-51): for every identifier
row whose group has more than one member and is within the allowed size,
emit one edge from the row's entity to the group's anchor, except for the
anchor itself. -/
def build_edges [LinearOrder α] (rows : List (IdRow α)) : List (IdEdge α) :=
  rows.filterMap (fun r =>
    let g := groupRows rows r.identifier_type r.identifier_value_norm
    match anchorKey g, maxAllowed g with
    | some a, some m =>
        if 1 < g.length ∧ (g.length : Int) ≤ m ∧ r.entity_key ≠ a then
          some { left_entity_key := r.entity_key, right_entity_key := a,
                 identifier_type := r.identifier_type,
                 identifier_value_norm := r.identifier_value_norm }
        else none
    | _, _ => none)

/-- The distinct `(identifier_type, identifier_value_norm)` keys occurring
in `identifiers_all` (the grouping keys of the `GROUP BY`). -/
def groupKeys (rows : List (IdRow α)) : List (String × String) :=
  (rows.map (fun r => (r.identifier_type, r.identifier_value_norm))).dedup

/-- The skipped-groups audit insert of `GraphStage.build_edges`
(graph.py lines 55-77): one row per group whose size exceeds
`MAX(max_group_size)`, with reason `EXCEEDED_MAX_GROUP_SIZE`. -/
def skipped_groups (rows : List (IdRow α)) : List SkippedGroup :=
  (groupKeys rows).filterMap (fun k =>
    let g := groupRows rows k.1 k.2
    match maxAllowed g with
    | some m =>
        if m < (g.length : Int) then
          some { identifier_type := k.1, identifier_value_norm := k.2,
                 group_size := (g.length : Int), max_allowed := m,
                 reason := "EXCEEDED_MAX_GROUP_SIZE" }
        else none
    | none => none)

/-- The edges produced by `build_edges` for one identifier group. -/
def edgesFor [LinearOrder α] (rows : List (IdRow α)) (t v : String) : List (IdEdge α) :=
  (build_edges rows).filter (fun e => decide (e.identifier_type = t ∧ e.identifier_value_norm = v))

/-- Concrete `identifiers_all` fixture: one EMAIL group of three members
sharing the normalized value `"x"`, all with `max_group_size` 10. -/
def sampleRows : List (IdRow Nat) :=
  [{ entity_key := 2, identifier_type := "EMAIL", identifier_value_norm := "x", max_group_size := 10 },
   { entity_key := 1, identifier_type := "EMAIL", identifier_value_norm := "x", max_group_size := 10 },
   { entity_key := 9, identifier_type := "EMAIL", identifier_value_norm := "x", max_group_size := 10 }]

end BuildEdges

section Confidence

/-- The per-cluster statistics feeding `OutputStage.compute_confidence_scores`
(output.py lines 54-99): cluster size from
`idr_work.cluster_sizes_updates`, edge diversity and edge count from
`idr_work.cluster_edge_stats` (COALESCEd to 0 when the cluster has no
edges). -/
structure ClusterStats where
  resolved_id : String
  cluster_size : Nat
  edge_diversity : Nat
  edge_count : Nat
deriving DecidableEq

/-- `match_density` (output.py lines 93-97): 1.0 for clusters of size at
most one, otherwise `LEAST(1.0, edge_count / (cluster_size - 1))`. -/
def matchDensity (c : ClusterStats) : ℚ :=
  if c.cluster_size ≤ 1 then 1
  else min 1 ((c.edge_count : ℚ) / ((c.cluster_size : ℚ) - 1))

/-- `idr_work.max_diversity` (output.py lines 103-107):
`GREATEST(1, MAX(edge_diversity))` over the scored clusters. -/
def maxDiv (cs : List ClusterStats) : Nat :=
  max 1 (listMax 0 (cs.map (·.edge_diversity)))

/-- SQL `ROUND(q, 3)`: round to three decimal places (half-up, the same
as SQL's half-away-from-zero on the non-negative scores produced here). -/
def round3 (q : ℚ) : ℚ :=
  ((round (q * 1000) : ℤ) : ℚ) / 1000

/-- `confidence_score` (output.py lines 118-126): 1.0 for singleton
clusters, otherwise the rounded weighted sum of normalized edge
diversity, match density and a constant base. -/
def confidence_score (cs : List ClusterStats) (c : ClusterStats) : ℚ :=
  if c.cluster_size = 1 then 1
  else round3 (0.5 * ((c.edge_diversity : ℚ) / (maxDiv cs : ℚ))
    + 0.35 * matchDensity c + 0.15 * 1)

/-- `primary_reason` (output.py lines 127-140). -/
def primary_reason (c : ClusterStats) : String :=
  if c.cluster_size = 1 then "SINGLETON_NO_MATCH_REQUIRED"
  else if 3 ≤ c.edge_diversity ∧ (0.8 : ℚ) ≤ matchDensity c then
    toString c.edge_diversity ++ " identifier types, high density"
  else if 2 ≤ c.edge_diversity ∧ (0.5 : ℚ) ≤ matchDensity c then
    toString c.edge_diversity ++ " identifier types, moderate density"
  else if c.edge_diversity = 1 ∧ (0.8 : ℚ) ≤ matchDensity c then
    "Single identifier type, high density"
  else if c.edge_diversity = 1 ∧ matchDensity c < (0.5 : ℚ) then
    "Single identifier type, chain pattern"
  else
    toString c.edge_diversity ++ " identifier type(s), "
      ++ (if (0.5 : ℚ) ≤ matchDensity c then "moderate" else "low") ++ " density"

/-- Concrete singleton-cluster statistics fixture. -/
def singletonStat : ClusterStats :=
  { resolved_id := "b:7", cluster_size := 1, edge_diversity := 0, edge_count := 0 }

/-- Concrete cluster statistics fixture: one three-member cluster with
two identifier types, and one singleton. -/
def sampleStats : List ClusterStats :=
  [{ resolved_id := "a:1", cluster_size := 3, edge_diversity := 2, edge_count := 2 },
   singletonStat]

end Confidence

section FuzzyMatching

variable {γ β : Type} [DecidableEq γ] [LinearOrder β]

/-- Size of the block of blocking-key value `k`: the number of profile
rows (one per cluster) whose blocking expression evaluates to `k`
(the `block_sizes` CTE of graph.py lines 345-349). -/
def blockCount (P : List γ) (bk : γ → Option String) (k : String) : Nat :=
  (P.filter (fun x => decide (bk x = some k))).length

/-- Whether `x` and `y` share a non-null blocking-key value whose block is
within the ceiling (the `profile_with_bk` null filter, the join
`a.bk = b.bk` and the `valid_blocks` join of graph.py lines 338-360). -/
def sameValidBlock (P : List γ) (bk : γ → Option String) (maxBlock : Nat) (x y : γ) : Bool :=
  match bk x with
  | some k => decide (bk y = some k) && decide (blockCount P bk k ≤ maxBlock)
  | none => false

/-- The `scored_pairs` CTE of `GraphStage.run_fuzzy_matching`
(graph.py lines 353-361): every ordered pair of profile rows in the same
valid block, kept only in the orientation where the left MD5 hash is
strictly below the right one, with the rule's score expression evaluated
on the pair. `bk` is the blocking-key expression, `h` the MD5 hash and
`score` the score expression, abstracted as functions. -/
def scoredPairs (P : List γ) (bk : γ → Option String) (h : γ → β)
    (score : γ → γ → ℚ) (maxBlock : Nat) : List (γ × γ × ℚ) :=
  ((P.product P).filter
      (fun p => sameValidBlock P bk maxBlock p.1 p.2 && decide (h p.1 < h p.2))).map
    (fun p => (p.1, p.2, score p.1 p.2))

/-- The fuzzy edges inserted by `GraphStage.run_fuzzy_matching`
(graph.py lines 362-365): the scored pairs whose score reaches the
threshold (`WHERE score >= threshold`, an inclusive comparison). -/
def fuzzy_edges (P : List γ) (bk : γ → Option String) (h : γ → β)
    (score : γ → γ → ℚ) (maxBlock : Nat) (t : ℚ) : List (γ × γ) :=
  (scoredPairs P bk h score maxBlock).filterMap
    (fun q => if t ≤ q.2.2 then some (q.1, q.2.1) else none)

end FuzzyMatching

section SqlExprValidator

/-- ASCII reading of Python's regex class `\w`. -/
def isWordChar (c : Char) : Bool :=
  c.isAlphanum || c == '_'

/-- ASCII reading of Python's regex class `\s`. -/
def isSpaceChar (c : Char) : Bool :=
  c == ' ' || c == '\t' || c == '\n' || c == '\r' || c == '\x0b' || c == '\x0c'

/-- ASCII lowercase of one character, as SQL `LOWER` does per character. -/
def sqlLowerChar (c : Char) : Char :=
  if 'A' ≤ c ∧ c ≤ 'Z' then Char.ofNat (c.toNat + 32) else c

/-- ASCII uppercase of one character, as SQL `UPPER` does per character. -/
def sqlUpperChar (c : Char) : Char :=
  if 'a' ≤ c ∧ c ≤ 'z' then Char.ofNat (c.toNat - 32) else c

/-- Case-insensitive literal match: try to strip the (lowercase) pattern
from the front of the input, returning the rest on success. -/
def matchCI : List Char → List Char → Option (List Char)
  | [], l => some l
  | _ :: _, [] => none
  | p :: ps, c :: cs => if sqlLowerChar c = p then matchCI ps cs else none

/-- Word-boundary test for the position after a keyword: end of input or
a non-word character. -/
def boundaryOK : List Char → Bool
  | [] => true
  | c :: _ => !(isWordChar c)

/-- The single-token keywords of `_DANGEROUS_SQL_RE` (config.py
lines 71-76), lowercased. -/
def kwSimple : List (List Char) :=
  [['i','n','s','e','r','t'], ['u','p','d','a','t','e'], ['d','e','l','e','t','e'],
   ['d','r','o','p'], ['c','r','e','a','t','e'], ['a','l','t','e','r'],
   ['g','r','a','n','t'], ['r','e','v','o','k','e'], ['t','r','u','n','c','a','t','e'],
   ['e','x','e','c'], ['e','x','e','c','u','t','e']]

/-- Whether one of the keyword alternatives of `_DANGEROUS_SQL_RE`
(`INSERT|...|EXECUTE|UNION\s+ALL|UNION\s+SELECT` followed by `\b`)
matches at the current position. -/
def kwMatchAt (l : List Char) : Bool :=
  (kwSimple.any (fun kw =>
      match matchCI kw l with
      | some rest => boundaryOK rest
      | none => false)) ||
  (match matchCI ['u','n','i','o','n'] l with
   | some rest =>
       match rest with
       | c :: cs =>
           isSpaceChar c &&
             (let r2 := List.dropWhile isSpaceChar (c :: cs)
              (match matchCI ['a','l','l'] r2 with
               | some r3 => boundaryOK r3
               | none => false) ||
              (match matchCI ['s','e','l','e','c','t'] r2 with
               | some r3 => boundaryOK r3
               | none => false))
       | [] => false
   | none => false)

/-- Whether the alternatives `;\s*$` or `;\s*\w` match at the current
position: a semicolon followed, after optional whitespace, by the end of
the input or a word character. -/
def semiAt : List Char → Bool
  | ';' :: rest =>
      (match List.dropWhile isSpaceChar rest with
       | [] => true
       | c :: _ => isWordChar c)
  | _ => false

/-- Whether the alternative `--\s` matches at the current position. -/
def commentAt : List Char → Bool
  | '-' :: '-' :: c :: _ => isSpaceChar c
  | _ => false

/-- Whether the alternative `/\*` matches at the current position. -/
def openCommentAt : List Char → Bool
  | '/' :: '*' :: _ => true
  | _ => false

/-- Whether the alternative `\*/` matches at the current position. -/
def closeCommentAt : List Char → Bool
  | '*' :: '/' :: _ => true
  | _ => false

/-- Whether any alternative of `_DANGEROUS_SQL_RE` matches at the current
position; `prevWord` says whether the preceding character is a word
character (for the word boundary `\b` opening the keyword group). -/
def dangerAt (prevWord : Bool) (l : List Char) : Bool :=
  semiAt l || commentAt l || openCommentAt l || closeCommentAt l ||
    (!prevWord && kwMatchAt l)

/-- Scan of `re.search`: try every position, tracking whether the
previous character is a word character. -/
def hasDangerAux (prevWord : Bool) : List Char → Bool
  | [] => false
  | c :: cs => dangerAt prevWord (c :: cs) || hasDangerAux (isWordChar c) cs

/-- `_DANGEROUS_SQL_RE.search(value)` is not None (config.py lines 71-76). -/
def hasDanger (s : String) : Bool :=
  hasDangerAux false s.data

/-- `validate_sql_expr` (config.py lines 79-105): error on empty input,
error when the dangerous pattern matches, otherwise return the value
unchanged. -/
def validate_sql_expr (value : String) : Except String String :=
  if value = "" then Except.error "expression cannot be empty"
  else if hasDanger value then Except.error "Unsafe SQL detected"
  else Except.ok value

/-- Whether `validate_sql_expr` raises for the given input. -/
def isRejected (value : String) : Bool :=
  match validate_sql_expr value with
  | Except.error _ => true
  | Except.ok _ => false

end SqlExprValidator

section NumericValidators

/-- `validate_integer` (config.py lines 108-126) on a numeric input:
`int(value)` truncates toward zero and the function returns the result;
there is no range check. -/
def validate_integer (value : ℚ) : Except String Int :=
  Except.ok (value.num.tdiv (value.den : Int))

/-- `validate_float` (config.py lines 129-149) on a numeric input:
`float(value)` followed by the sanity bound `-1e15 < result < 1e15`;
out-of-range values raise. -/
def validate_float (value : ℚ) : Except String ℚ :=
  if -(10 ^ 15 : ℚ) < value ∧ value < (10 ^ 15 : ℚ) then Except.ok value
  else Except.error "Float value out of range"

end NumericValidators

section Preflight

/-- A row of `idr_out.run_history`; `started_at` is a timestamp in
seconds. -/
structure RunRow where
  run_id : String
  status : String
  started_at : Int
deriving DecidableEq

/-- The persistent state seen by the runner prefix: the run-history table
and, abstractly, the production output tables (membership, clusters,
edges). -/
structure PipeState (π : Type) where
  history : List RunRow
  prod : π
deriving DecidableEq

/-- The outcome reported by `IDRRunner.run`. -/
structure RunOutcome where
  status : String
  error : Option String
deriving DecidableEq

/-- The stale-lease reclamation UPDATE of `PreflightStage.run`
(preflight.py lines 25-31): every RUNNING row strictly older than
4 hours (14400 seconds) is marked INTERRUPTED. -/
def markStale (now : Int) (rows : List RunRow) : List RunRow :=
  rows.map (fun r =>
    if r.status = "RUNNING" ∧ r.started_at < now - 14400 then
      { r with status := "INTERRUPTED" }
    else r)

/-- The RUNNING rows of the history (the concurrency query of
preflight.py lines 34-36). -/
def runningRows (rows : List RunRow) : List RunRow :=
  rows.filter (fun r => decide (r.status = "RUNNING"))

/-- `PreflightStage.run` concurrency handling (preflight.py lines 25-38):
mark stale leases, then fail naming the first remaining RUNNING run. -/
def preflightRun {π : Type} (now : Int) (st : PipeState π) : PipeState π × Option String :=
  let h := markStale now st.history
  match runningRows h with
  | [] => ({ st with history := h }, none)
  | r :: _ => ({ st with history := h }, some ("Concurrent run detected: " ++ r.run_id))

/-- `IDRRunner._record_run_start` (runner.py lines 314-326): insert a
RUNNING row for the new run. -/
def recordRunStart {π : Type} (now : Int) (newId : String) (st : PipeState π) : PipeState π :=
  { st with history := st.history ++ [{ run_id := newId, status := "RUNNING", started_at := now }] }

/-- The prefix of `IDRRunner.run` (runner.py lines 163-170): preflight
first; on a concurrency error the run fails without recording a RUNNING
row and without touching the production tables; otherwise the RUNNING
row is inserted and the rest of the pipeline (abstracted as `rest`)
executes. -/
def runnerRun {π : Type} (now : Int) (newId : String)
    (rest : PipeState π → PipeState π × RunOutcome) (st : PipeState π) :
    PipeState π × RunOutcome :=
  match preflightRun now st with
  | (st1, some e) => (st1, { status := "FAILED", error := some e })
  | (st1, none) => rest (recordRunStart now newId st1)

end Preflight

section DryRun

variable {α : Type}

/-- A row of `idr_out.dry_run_results` (output.py lines 297-312). -/
structure DryRow (α : Type) where
  entity_key : α
  current_resolved_id : Option α
  new_resolved_id : α
  change_type : String
  run_id : String
deriving DecidableEq

/-- A row of `idr_out.dry_run_summary` (output.py lines 315-326). -/
structure DrySummary where
  run_id : String
  new_entities : Nat
  moved_entities : Nat
  unchanged_entities : Nat
  total_entities : Nat
deriving DecidableEq

/-- The output tables touched by `OutputStage`: the production tables
(membership, clusters, edges) and the two dry-run tables. -/
structure OutState (α : Type) where
  membership : List (α × α)
  clusters : List (α × Nat)
  edges : List (α × α × String)
  dry_run_results : List (DryRow α)
  dry_run_summary : List DrySummary
deriving DecidableEq

/-- Lookup of the persisted membership row of an entity (the LEFT JOIN of
output.py lines 310-311; membership is keyed by entity). -/
def lookupMembership [DecidableEq α] (m : List (α × α)) (e : α) : Option α :=
  (m.find? (fun p => decide (p.1 = e))).map (·.2)

/-- The CASE expression of output.py lines 303-307: NEW when no persisted
membership, MOVED when the persisted resolved id differs from the new
label, UNCHANGED otherwise. -/
def classifyChange [DecidableEq α] (cur : Option α) (newLbl : α) : String :=
  match cur with
  | none => "NEW"
  | some rid => if rid ≠ newLbl then "MOVED" else "UNCHANGED"

/-- `OutputStage.generate_dry_run_output` (output.py lines 294-326):
write one detail row per computed label and a one-row summary of counts;
no other table is touched. -/
def generate_dry_run_output [DecidableEq α] (runId : String) (labels : List (α × α))
    (st : OutState α) : OutState α :=
  let results := labels.map (fun p =>
    { entity_key := p.1
      current_resolved_id := lookupMembership st.membership p.1
      new_resolved_id := p.2
      change_type := classifyChange (lookupMembership st.membership p.1) p.2
      run_id := runId : DryRow α })
  { st with
    dry_run_results := results
    dry_run_summary := [{
      run_id := runId
      new_entities := (results.filter (fun r => decide (r.change_type = "NEW"))).length
      moved_entities := (results.filter (fun r => decide (r.change_type = "MOVED"))).length
      unchanged_entities := (results.filter (fun r => decide (r.change_type = "UNCHANGED"))).length
      total_entities := results.length }] }

/-- The output branch of `IDRRunner.run` (runner.py lines 246-264):
dry runs take the dry-run analysis path, other runs execute
`generate_output` (abstracted as a function). -/
def output_phase [DecidableEq α] (dryRun : Bool) (runId : String) (labels : List (α × α))
    (generateOutput : OutState α → OutState α) (st : OutState α) : OutState α :=
  if dryRun then generate_dry_run_output runId labels st else generateOutput st

end DryRun

section Canonicalization

/-- SQL `LOWER` on an ASCII string (applied per character). -/
def sqlLower (s : String) : String :=
  String.mk (s.data.map sqlLowerChar)

/-- SQL `UPPER` on an ASCII string (applied per character). -/
def sqlUpper (s : String) : String :=
  String.mk (s.data.map sqlUpperChar)

/-- The canonicalization applied by `ExtractionStage.extract_identifiers`
(extraction.py lines 145-149): wrap the value in `LOWER(...)` for mode
LOWERCASE, `UPPER(...)` for mode UPPERCASE, and leave it untouched
otherwise (mode NONE). -/
def canonicalize (mode : String) (x : String) : String :=
  if mode = "LOWERCASE" then sqlLower x
  else if mode = "UPPERCASE" then sqlUpper x
  else x

end Canonicalization

/-! Helper lemmas about the fold-based `MIN`/`MAX` aggregates. -/

section FoldLemmas

variable {α : Type} [LinearOrder α]

theorem listMin_le_init (a : α) (l : List α) : listMin a l ≤ a := by
  induction l generalizing a with
  | nil => exact le_rfl
  | cons b l ih =>
      calc listMin a (b :: l) = listMin (min a b) l := rfl
        _ ≤ min a b := ih _
        _ ≤ a := min_le_left _ _

theorem listMin_le_mem {b : α} (a : α) {l : List α} (h : b ∈ l) : listMin a l ≤ b := by
  induction l generalizing a with
  | nil => cases h
  | cons c l ih =>
      rcases List.mem_cons.mp h with rfl | hb
      · calc listMin a (b :: l) = listMin (min a b) l := rfl
          _ ≤ min a b := listMin_le_init _ _
          _ ≤ b := min_le_right _ _
      · exact ih (min a c) hb

theorem listMin_eq_init_or_mem (a : α) (l : List α) :
    listMin a l = a ∨ listMin a l ∈ l := by
  induction l generalizing a with
  | nil => exact Or.inl rfl
  | cons c l ih =>
      rcases ih (min a c) with h | h
      · rcases min_choice a c with hm | hm
        · exact Or.inl (by rw [show listMin a (c :: l) = listMin (min a c) l from rfl, h, hm])
        · refine Or.inr (List.mem_cons.mpr (Or.inl ?_))
          rw [show listMin a (c :: l) = listMin (min a c) l from rfl, h, hm]
      · exact Or.inr (List.mem_cons.mpr (Or.inr h))

theorem le_listMin {c a : α} {l : List α} (ha : c ≤ a) (hl : ∀ b ∈ l, c ≤ b) :
    c ≤ listMin a l := by
  induction l generalizing a with
  | nil => exact ha
  | cons d l ih =>
      exact ih (le_min ha (hl d (List.mem_cons_self d l)))
        (fun b hb => hl b (List.mem_cons_of_mem d hb))

theorem listMin_congr {a : α} {l₁ l₂ : List α} (h : ∀ b, b ∈ l₁ ↔ b ∈ l₂) :
    listMin a l₁ = listMin a l₂ :=
  le_antisymm
    (le_listMin (listMin_le_init a l₁) (fun b hb => listMin_le_mem a ((h b).mpr hb)))
    (le_listMin (listMin_le_init a l₂) (fun b hb => listMin_le_mem a ((h b).mp hb)))

theorem init_le_listMax (a : α) (l : List α) : a ≤ listMax a l := by
  induction l generalizing a with
  | nil => exact le_rfl
  | cons b l ih =>
      calc a ≤ max a b := le_max_left _ _
        _ ≤ listMax (max a b) l := ih _
        _ = listMax a (b :: l) := rfl

theorem mem_le_listMax {b : α} (a : α) {l : List α} (h : b ∈ l) : b ≤ listMax a l := by
  induction l generalizing a with
  | nil => cases h
  | cons c l ih =>
      rcases List.mem_cons.mp h with rfl | hb
      · calc b ≤ max a b := le_max_right _ _
          _ ≤ listMax (max a b) l := init_le_listMax _ _
          _ = listMax a (b :: l) := rfl
      · exact ih (max a c) hb

theorem listMax_le {c a : α} {l : List α} (ha : a ≤ c) (hl : ∀ b ∈ l, b ≤ c) :
    listMax a l ≤ c := by
  induction l generalizing a with
  | nil => exact ha
  | cons d l ih =>
      exact ih (max_le ha (hl d (List.mem_cons_self d l)))
        (fun b hb => hl b (List.mem_cons_of_mem d hb))

theorem listMax_const {m : α} {l : List α} (hl : ∀ b ∈ l, b = m) : listMax m l = m :=
  le_antisymm (listMax_le le_rfl (fun b hb => le_of_eq (hl b hb))) (init_le_listMax _ _)

end FoldLemmas

/-! Helper lemmas about label propagation. -/

section LabelPropagationLemmas

variable {α : Type} [LinearOrder α]

theorem mem_nbrs {E : List (α × α)} {v w : α} :
    w ∈ nbrs E v ↔ (v, w) ∈ lpEdges E := by
  simp only [nbrs, List.mem_filterMap]
  constructor
  · rintro ⟨⟨x, y⟩, hp, hf⟩
    by_cases hx : x = v
    · subst hx
      rw [if_pos rfl] at hf
      cases hf
      exact hp
    · rw [if_neg hx] at hf
      cases hf
  · intro h
    exact ⟨(v, w), h, by simp⟩

theorem lpEdges_symm {E : List (α × α)} {v w : α} :
    (v, w) ∈ lpEdges E ↔ (w, v) ∈ lpEdges E := by
  unfold lpEdges
  simp only [List.mem_append, List.mem_map]
  constructor
  · rintro (h | ⟨⟨x, y⟩, hp, he⟩)
    · exact Or.inr ⟨(v, w), h, rfl⟩
    · simp only [Prod.mk.injEq] at he
      obtain ⟨rfl, rfl⟩ := he
      exact Or.inl hp
  · rintro (h | ⟨⟨x, y⟩, hp, he⟩)
    · exact Or.inr ⟨(w, v), h, rfl⟩
    · simp only [Prod.mk.injEq] at he
      obtain ⟨rfl, rfl⟩ := he
      exact Or.inl hp

theorem lpEdges_endpoints {V : List α} {E : List (α × α)}
    (hE : ∀ p ∈ E, p.1 ∈ V ∧ p.2 ∈ V) :
    ∀ p ∈ lpEdges E, p.1 ∈ V ∧ p.2 ∈ V := by
  intro p hp
  unfold lpEdges at hp
  rcases List.mem_append.mp hp with h | h
  · exact hE p h
  · rcases List.mem_map.mp h with ⟨q, hq, he⟩
    subst he
    exact ⟨(hE q hq).2, (hE q hq).1⟩

theorem lpStep_le_self (E : List (α × α)) (lbl : α → α) (v : α) :
    lpStep E lbl v ≤ lbl v :=
  listMin_le_init _ _

theorem lpStep_le_nbr {E : List (α × α)} {v w : α} (lbl : α → α)
    (h : (v, w) ∈ lpEdges E) : lpStep E lbl v ≤ lbl w :=
  listMin_le_mem _ (List.mem_map_of_mem lbl (mem_nbrs.mpr h))

theorem lpStep_cases (E : List (α × α)) (lbl : α → α) (v : α) :
    lpStep E lbl v = lbl v ∨ ∃ w, (v, w) ∈ lpEdges E ∧ lpStep E lbl v = lbl w := by
  rcases listMin_eq_init_or_mem (lbl v) ((nbrs E v).map lbl) with h | h
  · exact Or.inl h
  · rcases List.mem_map.mp h with ⟨w, hw, he⟩
    exact Or.inr ⟨w, mem_nbrs.mp hw, he.symm⟩

theorem lpStep_congr {E E' : List (α × α)} (lbl : α → α)
    (hsame : ∀ p : α × α, p ∈ lpEdges E ↔ p ∈ lpEdges E') :
    lpStep E lbl = lpStep E' lbl := by
  funext v
  refine listMin_congr (fun b => ?_)
  simp only [List.mem_map]
  constructor
  · rintro ⟨w, hw, rfl⟩
    exact ⟨w, mem_nbrs.mpr ((hsame _).mp (mem_nbrs.mp hw)), rfl⟩
  · rintro ⟨w, hw, rfl⟩
    exact ⟨w, mem_nbrs.mpr ((hsame _).mpr (mem_nbrs.mp hw)), rfl⟩

theorem lpRun_congr {V : List α} {E E' : List (α × α)}
    (hsame : ∀ p : α × α, p ∈ lpEdges E ↔ p ∈ lpEdges E') :
    ∀ (n : Nat) (lbl : α → α), lpRun V E lbl n = lpRun V E' lbl n := by
  intro n
  induction n with
  | zero => intro lbl; rfl
  | succ n ih =>
      intro lbl
      simp only [lpRun]
      rw [← lpStep_congr lbl hsame]
      exact if_congr Iff.rfl (ih _) rfl

theorem lpRun_preserves {V : List α} {E : List (α × α)} (P : (α → α) → Prop)
    (hstep : ∀ lbl, P lbl → P (lpStep E lbl)) :
    ∀ (n : Nat) (lbl : α → α), P lbl → P (lpRun V E lbl n) := by
  intro n
  induction n with
  | zero => intro lbl h; exact h
  | succ n ih =>
      intro lbl h
      simp only [lpRun]
      split
      · exact ih _ (hstep _ h)
      · exact hstep _ h

theorem lpIter_preserves {E : List (α × α)} (P : (α → α) → Prop)
    (hstep : ∀ lbl, P lbl → P (lpStep E lbl)) :
    ∀ (n : Nat) (lbl : α → α), P lbl → P (lpIter E lbl n) := by
  intro n
  induction n with
  | zero => intro lbl h; exact h
  | succ n ih => intro lbl h; exact hstep _ (ih _ h)

theorem lpRun_le_self {V : List α} {E : List (α × α)} {lbl : α → α}
    (h : ∀ v, lbl v ≤ v) (n : Nat) : ∀ v, lpRun V E lbl n v ≤ v :=
  lpRun_preserves (fun f => ∀ v, f v ≤ v)
    (fun g hg v => le_trans (lpStep_le_self _ _ _) (hg v)) n lbl h

theorem lpRun_reach {V : List α} {E : List (α × α)} {lbl : α → α}
    (h : ∀ v, Reach E v (lbl v)) (n : Nat) : ∀ v, Reach E v (lpRun V E lbl n v) := by
  refine lpRun_preserves (fun f => ∀ v, Reach E v (f v)) (fun g hg v => ?_) n lbl h
  rcases lpStep_cases E g v with hc | ⟨w, hw, hc⟩
  · rw [hc]; exact hg v
  · rw [hc]; exact Relation.ReflTransGen.head hw (hg w)

theorem lpRun_mem_of_endpoints {V : List α} {E : List (α × α)} {lbl : α → α}
    (hE : ∀ p ∈ lpEdges E, p.1 ∈ V ∧ p.2 ∈ V)
    (h : ∀ v ∈ V, lbl v ∈ V) (n : Nat) : ∀ v ∈ V, lpRun V E lbl n v ∈ V := by
  refine lpRun_preserves (fun f => ∀ v ∈ V, f v ∈ V) (fun g hg v hv => ?_) n lbl h
  rcases lpStep_cases E g v with hc | ⟨w, hw, hc⟩
  · rw [hc]; exact hg v hv
  · rw [hc]; exact hg w (hE (v, w) hw).2

theorem reach_mem_V {V : List α} {E : List (α × α)} {v u : α}
    (hE : ∀ p ∈ lpEdges E, p.1 ∈ V ∧ p.2 ∈ V)
    (hv : v ∈ V) (h : Reach E v u) : u ∈ V := by
  induction h with
  | refl => exact hv
  | tail _ hbc ih => exact (hE _ hbc).2

theorem fix_constant_on_component {V : List α} {E : List (α × α)} {lbl : α → α} {v u : α}
    (hE : ∀ p ∈ lpEdges E, p.1 ∈ V ∧ p.2 ∈ V)
    (hfix : ∀ w ∈ V, lpStep E lbl w = lbl w)
    (hv : v ∈ V) (h : Reach E v u) : lbl v = lbl u := by
  induction h with
  | refl => rfl
  | @tail b c hab hbc ih =>
      have hb : b ∈ V := reach_mem_V hE hv hab
      have hc : c ∈ V := (hE _ hbc).2
      have h1 : lbl b ≤ lbl c := by
        rw [← hfix b hb]; exact lpStep_le_nbr lbl hbc
      have h2 : lbl c ≤ lbl b := by
        rw [← hfix c hc]; exact lpStep_le_nbr lbl (lpEdges_symm.mp hbc)
      rw [ih]; exact le_antisymm h1 h2

theorem lpStep_of_not_mem {V : List α} {E : List (α × α)} {v : α}
    (hE : ∀ p ∈ lpEdges E, p.1 ∈ V ∧ p.2 ∈ V) (hv : v ∉ V) (lbl : α → α) :
    lpStep E lbl v = lbl v := by
  have hn : nbrs E v = [] := by
    refine List.eq_nil_iff_forall_not_mem.mpr (fun w hw => ?_)
    exact hv (hE (v, w) (mem_nbrs.mp hw)).1
  unfold lpStep
  rw [hn]
  rfl

end LabelPropagationLemmas

/-- C1: For every fixed entity set and edge set, the synchronous min-label
propagation loop of `GraphStage.label_propagation` is deterministic — the
final label assignment depends only on the undirected edge view as a set,
so two runs over the same edge set (in any order) yield identical labels —
and when the loop stops because no label changed, every entity's final
label is the least entity key of its connected component, so each cluster
id is the minimum entity key among its members. -/
theorem label_propagation_deterministic_min_component
    {α : Type} [LinearOrder α] (V : List α) (E E' : List (α × α)) (n : Nat) (v : α)
    (hE : ∀ p ∈ E, p.1 ∈ V ∧ p.2 ∈ V)
    (h1 : ∀ p ∈ lpEdges E, p ∈ lpEdges E')
    (h2 : ∀ p ∈ lpEdges E', p ∈ lpEdges E)
    (hv : v ∈ V)
    (hfix : ∀ u ∈ V, lpStep E (lpRun V E id n) u = lpRun V E id n u) :
    lpRun V E id n = lpRun V E' id n ∧
    IsLeast {u | u ∈ V ∧ Reach E v u} (lpRun V E id n v) := by
  have hsame : ∀ p : α × α, p ∈ lpEdges E ↔ p ∈ lpEdges E' :=
    fun p => ⟨h1 p, h2 p⟩
  have hE' := lpEdges_endpoints hE
  refine ⟨lpRun_congr hsame n id, ⟨?_, ?_⟩, ?_⟩
  · exact lpRun_mem_of_endpoints hE' (fun w hw => hw) n v hv
  · exact lpRun_reach (fun w => Relation.ReflTransGen.refl) n v
  · rintro u ⟨hu, hr⟩
    calc lpRun V E id n v = lpRun V E id n u :=
          fix_constant_on_component hE' hfix hv hr
      _ ≤ u := lpRun_le_self (fun w => le_rfl) n u

/-- Witness for C1: a concrete three-entity chain, its edge list in two
different orders; the loop converges within five iterations and the
theorem applies. -/
theorem label_propagation_deterministic_min_component_witness :
    (∀ p ∈ [((2 : Nat), (1 : Nat)), (9, 2)], p.1 ∈ [2, 1, 9] ∧ p.2 ∈ [2, 1, 9]) ∧
    (∀ p ∈ lpEdges [((2 : Nat), (1 : Nat)), (9, 2)], p ∈ lpEdges [((9 : Nat), (2 : Nat)), (2, 1)]) ∧
    (∀ p ∈ lpEdges [((9 : Nat), (2 : Nat)), (2, 1)], p ∈ lpEdges [((2 : Nat), (1 : Nat)), (9, 2)]) ∧
    (9 : Nat) ∈ [2, 1, 9] ∧
    (∀ u ∈ [(2 : Nat), 1, 9],
      lpStep [((2 : Nat), (1 : Nat)), (9, 2)] (lpRun [2, 1, 9] [(2, 1), (9, 2)] id 5) u =
        lpRun [2, 1, 9] [(2, 1), (9, 2)] id 5 u) ∧
    (lpRun [(2 : Nat), 1, 9] [(2, 1), (9, 2)] id 5 = lpRun [2, 1, 9] [(9, 2), (2, 1)] id 5 ∧
      IsLeast {u | u ∈ [(2 : Nat), 1, 9] ∧ Reach [(2, 1), (9, 2)] 9 u}
        (lpRun [2, 1, 9] [(2, 1), (9, 2)] id 5 9)) :=
  ⟨by decide, by decide, by decide, by decide, by decide,
    label_propagation_deterministic_min_component [2, 1, 9] [(2, 1), (9, 2)] [(9, 2), (2, 1)]
      5 9 (by decide) (by decide) (by decide) (by decide) (by decide)⟩

/-- C10: Invariants of label propagation, for every iteration count and
edge set whose endpoints lie in the entity set: each entity's label is at
most its own key, labels only decrease from one iteration to the next,
the label is always the key of some entity in the same connected
component, and once one iteration changes nothing the labels stay fixed
in all later iterations. -/
theorem label_propagation_invariants
    {α : Type} [LinearOrder α] (V : List α) (E : List (α × α)) (n : Nat) (v : α)
    (hE : ∀ p ∈ E, p.1 ∈ V ∧ p.2 ∈ V) (hv : v ∈ V) :
    lpIter E id n v ≤ v ∧
    lpIter E id (n + 1) v ≤ lpIter E id n v ∧
    (lpIter E id n v ∈ V ∧ Reach E v (lpIter E id n v)) ∧
    ((∀ u ∈ V, lpIter E id (n + 1) u = lpIter E id n u) →
      ∀ m, n ≤ m → lpIter E id m = lpIter E id n) := by
  have hE' := lpEdges_endpoints hE
  refine ⟨?_, lpStep_le_self _ _ _, ⟨?_, ?_⟩, ?_⟩
  · exact lpIter_preserves (fun f => ∀ w, f w ≤ w)
      (fun g hg w => le_trans (lpStep_le_self _ _ _) (hg w)) n id (fun w => le_rfl) v
  · refine lpIter_preserves (fun f => ∀ w ∈ V, f w ∈ V) (fun g hg w hw => ?_)
      n id (fun w hw => hw) v hv
    rcases lpStep_cases E g w with hc | ⟨x, hx, hc⟩
    · rw [hc]; exact hg w hw
    · rw [hc]; exact hg x (hE' (w, x) hx).2
  · refine lpIter_preserves (fun f => ∀ w, Reach E w (f w)) (fun g hg w => ?_)
      n id (fun w => Relation.ReflTransGen.refl) v
    rcases lpStep_cases E g w with hc | ⟨x, hx, hc⟩
    · rw [hc]; exact hg w
    · rw [hc]; exact Relation.ReflTransGen.head hx (hg x)
  · intro hstop m hm
    have hfun : lpIter E id (n + 1) = lpIter E id n := by
      funext w
      by_cases hw : w ∈ V
      · exact hstop w hw
      · exact lpStep_of_not_mem hE' hw (lpIter E id n)
    have key : ∀ k, lpIter E id (n + k) = lpIter E id n := by
      intro k
      induction k with
      | zero => rfl
      | succ k ih =>
          have hs : lpIter E id (n + (k + 1)) = lpStep E (lpIter E id (n + k)) := rfl
          rw [hs, ih]
          exact hfun
    have hm' : m = n + (m - n) := (Nat.add_sub_cancel' hm).symm
    rw [hm']
    exact key _

/-- Witness for C10: the invariants instantiated at the concrete chain
used for C1. -/
theorem label_propagation_invariants_witness :
    (∀ p ∈ [((2 : Nat), (1 : Nat)), (9, 2)], p.1 ∈ [2, 1, 9] ∧ p.2 ∈ [2, 1, 9]) ∧
    (9 : Nat) ∈ [2, 1, 9] ∧
    (lpIter [((2 : Nat), (1 : Nat)), (9, 2)] id 3 9 ≤ 9 ∧
      lpIter [((2 : Nat), (1 : Nat)), (9, 2)] id (3 + 1) 9 ≤ lpIter [(2, 1), (9, 2)] id 3 9 ∧
      (lpIter [((2 : Nat), (1 : Nat)), (9, 2)] id 3 9 ∈ [2, 1, 9] ∧
        Reach [((2 : Nat), (1 : Nat)), (9, 2)] 9 (lpIter [(2, 1), (9, 2)] id 3 9)) ∧
      ((∀ u ∈ [(2 : Nat), 1, 9],
          lpIter [((2 : Nat), (1 : Nat)), (9, 2)] id (3 + 1) u = lpIter [(2, 1), (9, 2)] id 3 u) →
        ∀ m, 3 ≤ m →
          lpIter [((2 : Nat), (1 : Nat)), (9, 2)] id m = lpIter [(2, 1), (9, 2)] id 3)) :=
  ⟨by decide, by decide,
    label_propagation_invariants [2, 1, 9] [(2, 1), (9, 2)] 3 9 (by decide) (by decide)⟩

/-! Helper lemmas for the edge-construction claim. -/

section BuildEdgesLemmas

variable {σ τ : Type}

theorem filterMap_filter_comm (f : σ → Option τ) (p : τ → Bool) (q : σ → Bool)
    (h : ∀ a b, f a = some b → p b = q a) :
    ∀ l : List σ, (l.filterMap f).filter p = (l.filter q).filterMap f := by
  intro l
  induction l with
  | nil => rfl
  | cons a l ih =>
      cases hf : f a with
      | none =>
          cases hq : q a
          · simp [List.filterMap_cons, hf, List.filter_cons, hq, ih]
          · simp [List.filterMap_cons, hf, List.filter_cons, hq, ih]
      | some b =>
          have hpb : p b = q a := h a b hf
          cases hq : q a
          · rw [hq] at hpb
            simp [List.filterMap_cons, hf, List.filter_cons, hq, hpb, ih]
          · rw [hq] at hpb
            simp [List.filterMap_cons, hf, List.filter_cons, hq, hpb, ih]

theorem filterMap_ite_map (P : σ → Prop) [DecidablePred P] (g : σ → τ) :
    ∀ l : List σ, l.filterMap (fun x => if P x then some (g x) else none)
      = (l.filter (fun x => decide (P x))).map g := by
  intro l
  induction l with
  | nil => rfl
  | cons a l ih =>
      by_cases h : P a
      · simp [List.filterMap_cons, List.filter_cons, h, ih]
      · simp [List.filterMap_cons, List.filter_cons, h, ih]

theorem filterMap_eq_nil_of {f : σ → Option τ} :
    ∀ {l : List σ}, (∀ a ∈ l, f a = none) → l.filterMap f = [] := by
  intro l h
  induction l with
  | nil => rfl
  | cons a l ih =>
      rw [List.filterMap_cons, h a (List.mem_cons_self a l)]
      exact ih (fun b hb => h b (List.mem_cons_of_mem a hb))

theorem anchorKey_isLeast {α : Type} [LinearOrder α] {G : List (IdRow α)} (hG : G ≠ []) :
    ∃ a, anchorKey G = some a ∧ IsLeast {u | u ∈ G.map (·.entity_key)} a := by
  cases G with
  | nil => exact absurd rfl hG
  | cons r rest =>
      refine ⟨listMin r.entity_key (rest.map (·.entity_key)), ?_, ?_, ?_⟩
      · rfl
      · show listMin r.entity_key (rest.map (·.entity_key)) ∈ (r :: rest).map (·.entity_key)
        rcases listMin_eq_init_or_mem r.entity_key (rest.map (·.entity_key)) with h | h
        · rw [h, List.map_cons]
          exact List.mem_cons_self _ _
        · rw [List.map_cons]
          exact List.mem_cons_of_mem _ h
      · rintro b hb
        rw [Set.mem_setOf_eq, List.map_cons, List.mem_cons] at hb
        rcases hb with rfl | hb
        · exact listMin_le_init _ _
        · exact listMin_le_mem _ hb

theorem maxAllowed_of_const {α : Type} {G : List (IdRow α)} {m : Int}
    (hG : G ≠ []) (hm : ∀ r ∈ G, r.max_group_size = m) :
    maxAllowed G = some m := by
  cases G with
  | nil => exact absurd rfl hG
  | cons r rest =>
      show some (listMax r.max_group_size (rest.map (·.max_group_size))) = some m
      rw [hm r (List.mem_cons_self r rest)]
      congr 1
      exact listMax_const (fun b hb => by
        rcases List.mem_map.mp hb with ⟨s, hs, rfl⟩
        exact hm s (List.mem_cons_of_mem r hs))

end BuildEdgesLemmas

/-- C2: For every identifier group of size `k > 1` whose members carry a
common configured `max_group_size = m` and have pairwise distinct entity
keys: the anchor exists and is the minimum entity key of the group; if
`k ≤ m` then `build_edges` creates exactly `k - 1` edges for the group,
one from each non-anchor member to the anchor; if `k > m` the group
yields no edges and is recorded in the skipped-groups audit log with its
group size and reason EXCEEDED_MAX_GROUP_SIZE. -/
theorem build_edges_anchor_and_hub_safety
    {α : Type} [LinearOrder α] (rows : List (IdRow α)) (t v : String) (k : Nat) (m : Int)
    (hk : (groupRows rows t v).length = k) (hk1 : 1 < k)
    (hm : ∀ r ∈ groupRows rows t v, r.max_group_size = m)
    (hnd : ((groupRows rows t v).map (·.entity_key)).Nodup) :
    ∃ a, anchorKey (groupRows rows t v) = some a ∧
      IsLeast {u | u ∈ (groupRows rows t v).map (·.entity_key)} a ∧
      ((k : Int) ≤ m →
        (edgesFor rows t v).map (·.left_entity_key)
            = ((groupRows rows t v).map (·.entity_key)).erase a ∧
        (∀ e ∈ edgesFor rows t v, e.right_entity_key = a) ∧
        (edgesFor rows t v).length = k - 1) ∧
      (m < (k : Int) →
        edgesFor rows t v = [] ∧
        { identifier_type := t, identifier_value_norm := v, group_size := (k : Int),
          max_allowed := m, reason := "EXCEEDED_MAX_GROUP_SIZE" } ∈ skipped_groups rows) := by
  have hGne : groupRows rows t v ≠ [] := by
    intro h
    rw [h] at hk
    simp at hk
    omega
  obtain ⟨a, hanchor, hleast⟩ := anchorKey_isLeast hGne
  have hmax : maxAllowed (groupRows rows t v) = some m := maxAllowed_of_const hGne hm
  have hkey : ∀ r ∈ groupRows rows t v,
      r.identifier_type = t ∧ r.identifier_value_norm = v := by
    intro r hr
    have := (List.mem_filter.mp hr).2
    simpa using this
  have hgrp : ∀ r ∈ groupRows rows t v,
      groupRows rows r.identifier_type r.identifier_value_norm = groupRows rows t v := by
    intro r hr
    rw [(hkey r hr).1, (hkey r hr).2]
  have hcomm : edgesFor rows t v = (groupRows rows t v).filterMap (fun r =>
      match anchorKey (groupRows rows r.identifier_type r.identifier_value_norm),
            maxAllowed (groupRows rows r.identifier_type r.identifier_value_norm) with
      | some a', some m' =>
          if 1 < (groupRows rows r.identifier_type r.identifier_value_norm).length ∧
              ((groupRows rows r.identifier_type r.identifier_value_norm).length : Int) ≤ m' ∧
              r.entity_key ≠ a' then
            some { left_entity_key := r.entity_key, right_entity_key := a',
                   identifier_type := r.identifier_type,
                   identifier_value_norm := r.identifier_value_norm }
          else none
      | _, _ => none) := by
    refine filterMap_filter_comm _ _ _ (fun r e hf => ?_) rows
    have hf' : (match anchorKey (groupRows rows r.identifier_type r.identifier_value_norm),
            maxAllowed (groupRows rows r.identifier_type r.identifier_value_norm) with
        | some a', some m' =>
            if 1 < (groupRows rows r.identifier_type r.identifier_value_norm).length ∧
                ((groupRows rows r.identifier_type r.identifier_value_norm).length : Int) ≤ m' ∧
                r.entity_key ≠ a' then
              some { left_entity_key := r.entity_key, right_entity_key := a',
                     identifier_type := r.identifier_type,
                     identifier_value_norm := r.identifier_value_norm }
            else none
        | _, _ => none) = some e := hf
    clear hf
    rcases hma : anchorKey (groupRows rows r.identifier_type r.identifier_value_norm) with _ | a'
    · rw [hma] at hf'
      exact Option.noConfusion hf'
    rcases hmm : maxAllowed (groupRows rows r.identifier_type r.identifier_value_norm) with _ | m'
    · rw [hma, hmm] at hf'
      exact Option.noConfusion hf'
    rw [hma, hmm] at hf'
    have hf'' : (if 1 < (groupRows rows r.identifier_type r.identifier_value_norm).length ∧
        ((groupRows rows r.identifier_type r.identifier_value_norm).length : Int) ≤ m' ∧
        r.entity_key ≠ a' then
          some ({ left_entity_key := r.entity_key, right_entity_key := a',
                  identifier_type := r.identifier_type,
                  identifier_value_norm := r.identifier_value_norm } : IdEdge α)
        else none) = some e := hf'
    by_cases hc : 1 < (groupRows rows r.identifier_type r.identifier_value_norm).length ∧
        ((groupRows rows r.identifier_type r.identifier_value_norm).length : Int) ≤ m' ∧
        r.entity_key ≠ a'
    · rw [if_pos hc] at hf''
      cases hf''
      rfl
    · rw [if_neg hc] at hf''
      exact Option.noConfusion hf''
  refine ⟨a, hanchor, hleast, ?_, ?_⟩
  · intro hkm
    have hbody : ∀ r ∈ groupRows rows t v,
        (match anchorKey (groupRows rows r.identifier_type r.identifier_value_norm),
              maxAllowed (groupRows rows r.identifier_type r.identifier_value_norm) with
        | some a', some m' =>
            if 1 < (groupRows rows r.identifier_type r.identifier_value_norm).length ∧
                ((groupRows rows r.identifier_type r.identifier_value_norm).length : Int) ≤ m' ∧
                r.entity_key ≠ a' then
              some { left_entity_key := r.entity_key, right_entity_key := a',
                     identifier_type := r.identifier_type,
                     identifier_value_norm := r.identifier_value_norm }
            else none
        | _, _ => none)
          = if r.entity_key ≠ a then
              some ({ left_entity_key := r.entity_key, right_entity_key := a,
                      identifier_type := t, identifier_value_norm := v } : IdEdge α)
            else none := by
      intro r hr
      rw [hgrp r hr, hanchor, hmax, (hkey r hr).1, (hkey r hr).2]
      show (if 1 < (groupRows rows t v).length ∧
            ((groupRows rows t v).length : Int) ≤ m ∧ r.entity_key ≠ a then
          some ({ left_entity_key := r.entity_key, right_entity_key := a,
                  identifier_type := t, identifier_value_norm := v } : IdEdge α)
        else none) = _
      by_cases hc : r.entity_key ≠ a
      · rw [if_pos ⟨by omega, by rw [hk]; exact hkm, hc⟩, if_pos hc]
      · rw [if_neg, if_neg hc]
        intro hcon
        exact hc hcon.2.2
    have hedges : edgesFor rows t v
        = ((groupRows rows t v).filter (fun r => decide (r.entity_key ≠ a))).map
            (fun r => ({ left_entity_key := r.entity_key, right_entity_key := a,
                         identifier_type := t, identifier_value_norm := v } : IdEdge α)) := by
      rw [hcomm, List.filterMap_congr hbody, filterMap_ite_map]
    have hmapleft : (edgesFor rows t v).map (·.left_entity_key)
        = ((groupRows rows t v).map (·.entity_key)).erase a := by
      rw [hedges, List.map_map]
      rw [hnd.erase_eq_filter a, List.map_filter]
      refine congrArg _ (List.filter_congr ?_)
      intro r _
      show decide (r.entity_key ≠ a) = ((· != a) ∘ (·.entity_key)) r
      by_cases h : r.entity_key = a <;> simp [h]
    refine ⟨hmapleft, ?_, ?_⟩
    · intro e he
      rw [hedges] at he
      rcases List.mem_map.mp he with ⟨r, _, rfl⟩
      rfl
    · have h1 : ((edgesFor rows t v).map (·.left_entity_key)).length
          = (edgesFor rows t v).length := List.length_map _ _
      have h2 : a ∈ (groupRows rows t v).map (·.entity_key) := hleast.1
      have h3 := List.length_erase_add_one h2
      have h4 : ((groupRows rows t v).map (·.entity_key)).length = k := by
        rw [List.length_map, hk]
      rw [hmapleft] at h1
      omega
  · intro hmk
    constructor
    · rw [hcomm]
      refine filterMap_eq_nil_of (fun r hr => ?_)
      rw [hgrp r hr, hanchor, hmax]
      show (if 1 < (groupRows rows t v).length ∧
            ((groupRows rows t v).length : Int) ≤ m ∧ r.entity_key ≠ a then
          some ({ left_entity_key := r.entity_key, right_entity_key := a,
                  identifier_type := r.identifier_type,
                  identifier_value_norm := r.identifier_value_norm } : IdEdge α)
        else none) = none
      rw [if_neg]
      intro hcon
      have hcon' := hcon.2.1
      rw [hk] at hcon'
      omega
    · have hmemkey : (t, v) ∈ groupKeys rows := by
        cases hGrp : groupRows rows t v with
        | nil => exact absurd hGrp hGne
        | cons r rest =>
            have hr : r ∈ groupRows rows t v := by
              rw [hGrp]
              exact List.mem_cons_self r rest
            have hrows : r ∈ rows := (List.mem_filter.mp hr).1
            refine List.mem_dedup.mpr (List.mem_map.mpr ⟨r, hrows, ?_⟩)
            rw [(hkey r hr).1, (hkey r hr).2]
      refine List.mem_filterMap.mpr ⟨(t, v), hmemkey, ?_⟩
      show (match maxAllowed (groupRows rows t v) with
        | some m' =>
            if m' < ((groupRows rows t v).length : Int) then
              some ({ identifier_type := t, identifier_value_norm := v,
                      group_size := ((groupRows rows t v).length : Int),
                      max_allowed := m', reason := "EXCEEDED_MAX_GROUP_SIZE" } : SkippedGroup)
            else none
        | none => none) = some _
      rw [hmax]
      show (if m < ((groupRows rows t v).length : Int) then
          some ({ identifier_type := t, identifier_value_norm := v,
                  group_size := ((groupRows rows t v).length : Int),
                  max_allowed := m, reason := "EXCEEDED_MAX_GROUP_SIZE" } : SkippedGroup)
        else none) = some _
      rw [hk, if_pos hmk]

/-! Helper lemmas about ASCII case mapping. -/

section CharLemmas

theorem char_le_iff (a b : Char) : a ≤ b ↔ a.toNat ≤ b.toNat :=
  ⟨fun h => h, fun h => h⟩

theorem charOfNat_toNat_small {n : Nat} (h : n < 128) : (Char.ofNat n).toNat = n := by
  unfold Char.ofNat
  split
  · rfl
  · omega

theorem sqlLowerChar_idem (c : Char) : sqlLowerChar (sqlLowerChar c) = sqlLowerChar c := by
  have hA : ('A').toNat = 65 := rfl
  have hZ : ('Z').toNat = 90 := rfl
  unfold sqlLowerChar
  split
  · next h =>
      rw [char_le_iff, char_le_iff, hA, hZ] at h
      have ht : (Char.ofNat (c.toNat + 32)).toNat = c.toNat + 32 :=
        charOfNat_toNat_small (by omega)
      rw [if_neg]
      intro hcon
      rw [char_le_iff, char_le_iff, hA, hZ, ht] at hcon
      omega
  · rfl

theorem sqlUpperChar_idem (c : Char) : sqlUpperChar (sqlUpperChar c) = sqlUpperChar c := by
  have ha : ('a').toNat = 97 := rfl
  have hz : ('z').toNat = 122 := rfl
  unfold sqlUpperChar
  split
  · next h =>
      rw [char_le_iff, char_le_iff, ha, hz] at h
      have ht : (Char.ofNat (c.toNat - 32)).toNat = c.toNat - 32 :=
        charOfNat_toNat_small (by omega)
      rw [if_neg]
      intro hcon
      rw [char_le_iff, char_le_iff, ha, hz, ht] at hcon
      omega
  · rfl

theorem sqlLower_idem (s : String) : sqlLower (sqlLower s) = sqlLower s := by
  unfold sqlLower
  refine congrArg String.mk ?_
  show (s.data.map sqlLowerChar).map sqlLowerChar = s.data.map sqlLowerChar
  rw [List.map_map]
  exact List.map_congr_left (fun c _ => sqlLowerChar_idem c)

theorem sqlUpper_idem (s : String) : sqlUpper (sqlUpper s) = sqlUpper s := by
  unfold sqlUpper
  refine congrArg String.mk ?_
  show (s.data.map sqlUpperChar).map sqlUpperChar = s.data.map sqlUpperChar
  rw [List.map_map]
  exact List.map_congr_left (fun c _ => sqlUpperChar_idem c)

end CharLemmas

/-- C9: Identifier canonicalization is idempotent: for every string and
every canonicalization mode among LOWERCASE, UPPERCASE and NONE,
applying the mode's normalization twice yields the same result as
applying it once. -/
theorem canonicalize_idempotent (mode : String) (x : String)
    (hmode : mode = "LOWERCASE" ∨ mode = "UPPERCASE" ∨ mode = "NONE") :
    canonicalize mode (canonicalize mode x) = canonicalize mode x := by
  rcases hmode with rfl | rfl | rfl
  · show canonicalize "LOWERCASE" (sqlLower x) = sqlLower x
    show sqlLower (sqlLower x) = sqlLower x
    exact sqlLower_idem x
  · have h1 : canonicalize "UPPERCASE" x = sqlUpper x := by
      unfold canonicalize
      rw [if_neg (by decide), if_pos rfl]
    rw [h1]
    have h2 : canonicalize "UPPERCASE" (sqlUpper x) = sqlUpper (sqlUpper x) := by
      unfold canonicalize
      rw [if_neg (by decide), if_pos rfl]
    rw [h2]
    exact sqlUpper_idem x
  · have h1 : canonicalize "NONE" x = x := by
      unfold canonicalize
      rw [if_neg (by decide), if_neg (by decide)]
    rw [h1, h1]

/-- Witness for C9: idempotence of LOWERCASE canonicalization on a
concrete mixed-case value. -/
theorem canonicalize_idempotent_witness :
    ("LOWERCASE" = "LOWERCASE" ∨ "LOWERCASE" = "UPPERCASE" ∨ "LOWERCASE" = "NONE") ∧
    canonicalize "LOWERCASE" (canonicalize "LOWERCASE" "AbC@Ex.COM")
      = canonicalize "LOWERCASE" "AbC@Ex.COM" :=
  ⟨Or.inl rfl, canonicalize_idempotent "LOWERCASE" "AbC@Ex.COM" (Or.inl rfl)⟩

/-- C6 counterexample: the integer validator accepts the value `1e15`
itself, whose magnitude is at least the claimed sanity bound `1e15`, so
it is not true that both numeric validators reject every value of
magnitude at least `1e15`. -/
theorem validate_integer_unbounded_counterexample :
    (10 : ℚ) ^ 15 ≤ |(1000000000000000 : ℚ)| ∧
    validate_integer (1000000000000000 : ℚ) = Except.ok 1000000000000000 := by
  constructor
  · rw [abs_of_nonneg (by norm_num)]
    norm_num
  · show Except.ok (Int.tdiv (1000000000000000 : ℚ).num ((1000000000000000 : ℚ).den : Int))
      = Except.ok 1000000000000000
    rfl

/-- C6 amended: the float validator coerces and rejects every value of
magnitude at least `1e15` and returns every smaller value unchanged; the
integer validator only coerces (truncating toward zero) and accepts
every integer with no range bound. -/
theorem validators_numeric_amended :
    (∀ q : ℚ, (10 : ℚ) ^ 15 ≤ |q| →
      validate_float q = Except.error "Float value out of range") ∧
    (∀ q : ℚ, |q| < (10 : ℚ) ^ 15 → validate_float q = Except.ok q) ∧
    (∀ n : Int, validate_integer (n : ℚ) = Except.ok n) := by
  refine ⟨fun q hq => ?_, fun q hq => ?_, fun n => ?_⟩
  · unfold validate_float
    rw [if_neg]
    intro hcon
    have : |q| < (10 : ℚ) ^ 15 := abs_lt.mpr ⟨by linarith [hcon.1], hcon.2⟩
    linarith
  · unfold validate_float
    rw [if_pos]
    have h := abs_lt.mp hq
    exact ⟨by linarith [h.1], h.2⟩
  · unfold validate_integer
    rw [Rat.num_intCast, Rat.den_intCast]
    norm_num

/-- Witness for C6 (amended): the bound rejects `1e15` in the float
validator, accepts `0.85`, and the integer validator passes `-7`
through. -/
theorem validators_numeric_amended_witness :
    ((10 : ℚ) ^ 15 ≤ |(1000000000000000 : ℚ)| ∧
      validate_float (1000000000000000 : ℚ) = Except.error "Float value out of range") ∧
    (|(0.85 : ℚ)| < (10 : ℚ) ^ 15 ∧ validate_float (0.85 : ℚ) = Except.ok (0.85 : ℚ)) ∧
    validate_integer ((-7 : Int) : ℚ) = Except.ok (-7) :=
  ⟨⟨by rw [abs_of_nonneg (by norm_num)]; norm_num,
      validators_numeric_amended.1 _ (by rw [abs_of_nonneg (by norm_num)]; norm_num)⟩,
    ⟨by rw [abs_of_nonneg (by norm_num)]; norm_num,
      validators_numeric_amended.2.1 _ (by rw [abs_of_nonneg (by norm_num)]; norm_num)⟩,
    validators_numeric_amended.2.2 (-7)⟩

/-- C7 counterexample: a RUNNING row that is exactly 4 hours old
(`started_at = 0`, `now = 14400`) makes the run fail with a concurrency
error instead of being reclaimed as INTERRUPTED, so "4 hours old or
older" is not the reclamation boundary — only strictly older rows are
reclaimed. -/
theorem preflight_exact_four_hours_counterexample :
    runnerRun (π := Unit) 14400 "new" (fun s => (s, { status := "SUCCESS", error := none }))
        { history := [{ run_id := "old", status := "RUNNING", started_at := 0 }], prod := () }
      = ({ history := [{ run_id := "old", status := "RUNNING", started_at := 0 }], prod := () },
          { status := "FAILED", error := some "Concurrent run detected: old" }) := by
  rfl

/-- C7 amended: when a run starts while the run history holds exactly one
other RUNNING row aged 4 hours or less, the run fails with a concurrency
error naming the conflicting run id, before any production table is
mutated and before a RUNNING row for the new run exists; when the
RUNNING row is strictly older than 4 hours, preflight marks it
INTERRUPTED and the new run proceeds. -/
theorem preflight_concurrency_amended {π : Type} (now : Int) (newId : String)
    (rest : PipeState π → PipeState π × RunOutcome) (st : PipeState π) (r : RunRow)
    (hone : runningRows st.history = [r])
    (hnew : ∀ x ∈ st.history, x.run_id ≠ newId) :
    (now - r.started_at ≤ 14400 →
      runnerRun now newId rest st
        = (st, { status := "FAILED",
                 error := some ("Concurrent run detected: " ++ r.run_id) }) ∧
      (runnerRun now newId rest st).1.prod = st.prod ∧
      ∀ x ∈ (runnerRun now newId rest st).1.history, x.run_id ≠ newId) ∧
    (14400 < now - r.started_at →
      runnerRun now newId rest st
        = rest { history := markStale now st.history
                   ++ [{ run_id := newId, status := "RUNNING", started_at := now }],
                 prod := st.prod } ∧
      { run_id := r.run_id, status := "INTERRUPTED", started_at := r.started_at }
          ∈ markStale now st.history ∧
      runningRows (markStale now st.history) = []) := by
  have hrmemrun : r ∈ runningRows st.history := by
    rw [hone]
    exact List.mem_cons_self r []
  have hrmem : r ∈ st.history := (List.mem_filter.mp hrmemrun).1
  have hR : r.status = "RUNNING" := by
    have := (List.mem_filter.mp hrmemrun).2
    simpa using this
  have huniq : ∀ x ∈ st.history, x.status = "RUNNING" → x = r := by
    intro x hx hxr
    have hxrun : x ∈ runningRows st.history := List.mem_filter.mpr ⟨hx, by simp [hxr]⟩
    rw [hone] at hxrun
    simpa using hxrun
  constructor
  · intro hage
    have hmark : markStale now st.history = st.history := by
      unfold markStale
      have hfix : ∀ x ∈ st.history,
          (if x.status = "RUNNING" ∧ x.started_at < now - 14400 then
            { x with status := "INTERRUPTED" } else x) = x := by
        intro x hx
        rw [if_neg]
        intro hcon
        have hxeq := huniq x hx hcon.1
        subst hxeq
        omega
      exact (List.map_congr_left hfix).trans (List.map_id _)
    have hrun' : runningRows (markStale now st.history) = [r] := by
      rw [hmark, hone]
    have heq : runnerRun now newId rest st
        = (st, { status := "FAILED",
                 error := some ("Concurrent run detected: " ++ r.run_id) }) := by
      unfold runnerRun preflightRun
      simp only [hmark, hone]
    refine ⟨heq, ?_, ?_⟩
    · rw [heq]
    · rw [heq]
      exact hnew
  · intro hage
    have hnotrun : ∀ y ∈ markStale now st.history, ¬ y.status = "RUNNING" := by
      intro y hy
      rcases List.mem_map.mp hy with ⟨x, hx, rfl⟩
      by_cases hxs : x.status = "RUNNING" ∧ x.started_at < now - 14400
      · rw [if_pos hxs]
        show ¬ ("INTERRUPTED" = "RUNNING")
        decide
      · rw [if_neg hxs]
        intro hxr
        have hxeq := huniq x hx hxr
        subst hxeq
        exact hxs ⟨hxr, by omega⟩
    have hrun0 : runningRows (markStale now st.history) = [] := by
      refine List.filter_eq_nil_iff.mpr ?_
      intro y hy
      simpa using hnotrun y hy
    refine ⟨?_, ?_, hrun0⟩
    · unfold runnerRun preflightRun
      simp only [hrun0]
      rfl
    · refine List.mem_map.mpr ⟨r, hrmem, ?_⟩
      rw [if_pos ⟨hR, by omega⟩]

/-- Witness for C7 (amended): a single RUNNING row aged more than 4 hours
is reclaimed and the run proceeds; the theorem applies at `now = 20000`
with the stale row started at 0. -/
theorem preflight_concurrency_amended_witness :
    (runningRows [{ run_id := "old", status := "RUNNING", started_at := 0 }]
        = [{ run_id := "old", status := "RUNNING", started_at := 0 }]) ∧
    (∀ x ∈ [({ run_id := "old", status := "RUNNING", started_at := 0 } : RunRow)],
      x.run_id ≠ "new") ∧
    ((20000 : Int) - 0 ≤ 14400 →
      runnerRun (π := Unit) 20000 "new" (fun s => (s, { status := "SUCCESS", error := none }))
          { history := [{ run_id := "old", status := "RUNNING", started_at := 0 }], prod := () }
        = ({ history := [{ run_id := "old", status := "RUNNING", started_at := 0 }], prod := () },
            { status := "FAILED", error := some ("Concurrent run detected: " ++ "old") }) ∧
      (runnerRun (π := Unit) 20000 "new" (fun s => (s, { status := "SUCCESS", error := none }))
          { history := [{ run_id := "old", status := "RUNNING", started_at := 0 }],
            prod := () }).1.prod = () ∧
      ∀ x ∈ (runnerRun (π := Unit) 20000 "new"
          (fun s => (s, { status := "SUCCESS", error := none }))
          { history := [{ run_id := "old", status := "RUNNING", started_at := 0 }],
            prod := () }).1.history, x.run_id ≠ "new") ∧
    ((14400 : Int) < 20000 - 0 →
      runnerRun (π := Unit) 20000 "new" (fun s => (s, { status := "SUCCESS", error := none }))
          { history := [{ run_id := "old", status := "RUNNING", started_at := 0 }], prod := () }
        = (fun s => (s, ({ status := "SUCCESS", error := none } : RunOutcome)))
            { history := markStale 20000 [{ run_id := "old", status := "RUNNING", started_at := 0 }]
                ++ [{ run_id := "new", status := "RUNNING", started_at := 20000 }],
              prod := () } ∧
      { run_id := "old", status := "INTERRUPTED", started_at := 0 }
          ∈ markStale 20000 [{ run_id := "old", status := "RUNNING", started_at := 0 }] ∧
      runningRows (markStale 20000 [{ run_id := "old", status := "RUNNING", started_at := 0 }])
        = []) := by
  refine ⟨by decide, by decide, ?_, ?_⟩
  · exact (preflight_concurrency_amended 20000 "new"
      (fun s => (s, { status := "SUCCESS", error := none }))
      { history := [{ run_id := "old", status := "RUNNING", started_at := 0 }], prod := () }
      { run_id := "old", status := "RUNNING", started_at := 0 }
      (by decide) (by decide)).1
  · exact (preflight_concurrency_amended 20000 "new"
      (fun s => (s, { status := "SUCCESS", error := none }))
      { history := [{ run_id := "old", status := "RUNNING", started_at := 0 }], prod := () }
      { run_id := "old", status := "RUNNING", started_at := 0 }
      (by decide) (by decide)).2

/-- C8: For every run with dryRun true, the membership, cluster and edge
output tables are left unchanged (whatever `generate_output` would do);
each computed label yields one dry-run detail row classified NEW when the
entity has no persisted membership row, MOVED when the persisted resolved
id differs from the new label, and UNCHANGED otherwise; and the dry-run
summary is the only other table written, with one row totalling the
labelled entities. -/
theorem dry_run_frame_and_classification {α : Type} [DecidableEq α]
    (runId : String) (labels : List (α × α)) (gen : OutState α → OutState α) (st : OutState α) :
    (output_phase true runId labels gen st).membership = st.membership ∧
    (output_phase true runId labels gen st).clusters = st.clusters ∧
    (output_phase true runId labels gen st).edges = st.edges ∧
    (∀ e l, (e, l) ∈ labels →
      ∃ row ∈ (output_phase true runId labels gen st).dry_run_results,
        row.entity_key = e ∧ row.new_resolved_id = l ∧ row.run_id = runId ∧
        row.current_resolved_id = lookupMembership st.membership e ∧
        (row.change_type = "NEW" ↔ lookupMembership st.membership e = none) ∧
        (row.change_type = "MOVED" ↔
          ∃ rid, lookupMembership st.membership e = some rid ∧ rid ≠ l) ∧
        (row.change_type = "UNCHANGED" ↔ lookupMembership st.membership e = some l)) ∧
    (∃ s, (output_phase true runId labels gen st).dry_run_summary = [s] ∧
      s.run_id = runId ∧ s.total_entities = labels.length) := by
  have hphase : output_phase true runId labels gen st
      = generate_dry_run_output runId labels st := rfl
  rw [hphase]
  refine ⟨rfl, rfl, rfl, ?_, ?_⟩
  · intro e l hel
    refine ⟨{ entity_key := e,
              current_resolved_id := lookupMembership st.membership e,
              new_resolved_id := l,
              change_type := classifyChange (lookupMembership st.membership e) l,
              run_id := runId }, List.mem_map.mpr ⟨(e, l), hel, rfl⟩, rfl, rfl, rfl, rfl, ?_, ?_, ?_⟩
    · cases hcur : lookupMembership st.membership e with
      | none => simp [classifyChange, hcur]
      | some rid =>
          simp only [classifyChange, hcur]
          by_cases hr : rid = l
          · simp [hr]
          · simp [hr]
    · cases hcur : lookupMembership st.membership e with
      | none => simp [classifyChange, hcur]
      | some rid =>
          simp only [classifyChange, hcur]
          by_cases hr : rid = l
          · simp [hr]
          · simp [hr]
    · cases hcur : lookupMembership st.membership e with
      | none => simp [classifyChange, hcur]
      | some rid =>
          simp only [classifyChange, hcur]
          by_cases hr : rid = l
          · simp [hr]
          · simp [hr]
  · refine ⟨_, rfl, rfl, ?_⟩
    show (labels.map _).length = labels.length
    rw [List.length_map]

/-- Witness for C8: a dry run over two computed labels against a
membership table holding one of the entities under a different resolved
id; the moved entity is classified MOVED. -/
theorem dry_run_frame_and_classification_witness :
    ((2 : Nat), (1 : Nat)) ∈ [((1 : Nat), (1 : Nat)), (2, 1)] ∧
    (output_phase true "dry_run_1" [((1 : Nat), (1 : Nat)), (2, 1)] id
        { membership := [(2, 2)], clusters := [(2, 1)], edges := [],
          dry_run_results := [], dry_run_summary := [] }).membership = [(2, 2)] ∧
    (∃ row ∈ (output_phase true "dry_run_1" [((1 : Nat), (1 : Nat)), (2, 1)] id
        { membership := [(2, 2)], clusters := [(2, 1)], edges := [],
          dry_run_results := [], dry_run_summary := [] }).dry_run_results,
      row.entity_key = 2 ∧ row.new_resolved_id = 1 ∧ row.run_id = "dry_run_1" ∧
      row.current_resolved_id = lookupMembership [((2 : Nat), (2 : Nat))] 2 ∧
      (row.change_type = "NEW" ↔ lookupMembership [((2 : Nat), (2 : Nat))] 2 = none) ∧
      (row.change_type = "MOVED" ↔
        ∃ rid, lookupMembership [((2 : Nat), (2 : Nat))] 2 = some rid ∧ rid ≠ 1) ∧
      (row.change_type = "UNCHANGED" ↔ lookupMembership [((2 : Nat), (2 : Nat))] 2 = some 1)) :=
  ⟨by decide,
    (dry_run_frame_and_classification "dry_run_1" [((1 : Nat), (1 : Nat)), (2, 1)] id
      { membership := [(2, 2)], clusters := [(2, 1)], edges := [],
        dry_run_results := [], dry_run_summary := [] }).1,
    (dry_run_frame_and_classification "dry_run_1" [((1 : Nat), (1 : Nat)), (2, 1)] id
      { membership := [(2, 2)], clusters := [(2, 1)], edges := [],
        dry_run_results := [], dry_run_summary := [] }).2.2.2.1 2 1 (by decide)⟩

/-! Helper lemmas for the confidence-score claim. -/

section ConfidenceLemmas

theorem floor_half : ⌊(1 / 2 : ℚ)⌋ = 0 := by
  norm_num [Int.floor_eq_iff]

theorem floor_thousand_half : ⌊(1000 + 1 / 2 : ℚ)⌋ = 1000 := by
  norm_num [Int.floor_eq_iff]

theorem round3_bounds {q : ℚ} (h0 : 0 ≤ q) (h1 : q ≤ 1) :
    0 ≤ round3 q ∧ round3 q ≤ 1 := by
  have hlo : (0 : ℤ) ≤ round (q * 1000) := by
    rw [round_eq]
    calc (0 : ℤ) = ⌊(1 / 2 : ℚ)⌋ := floor_half.symm
      _ ≤ ⌊q * 1000 + 1 / 2⌋ := Int.floor_le_floor (by nlinarith)
  have hhi : round (q * 1000) ≤ 1000 := by
    rw [round_eq]
    calc ⌊q * 1000 + 1 / 2⌋ ≤ ⌊(1000 + 1 / 2 : ℚ)⌋ := Int.floor_le_floor (by nlinarith)
      _ = 1000 := floor_thousand_half
  unfold round3
  constructor
  · apply div_nonneg _ (by norm_num)
    exact_mod_cast hlo
  · rw [div_le_one (by norm_num)]
    exact_mod_cast hhi

theorem matchDensity_bounds (c : ClusterStats) :
    0 ≤ matchDensity c ∧ matchDensity c ≤ 1 := by
  unfold matchDensity
  split
  · exact ⟨by norm_num, by norm_num⟩
  · next h =>
      have h2 : 2 ≤ c.cluster_size := by omega
      have hden : (1 : ℚ) ≤ (c.cluster_size : ℚ) - 1 := by
        have : (2 : ℚ) ≤ (c.cluster_size : ℚ) := by exact_mod_cast h2
        linarith
      constructor
      · exact le_min (by norm_num) (div_nonneg (by positivity) (by linarith))
      · exact min_le_left _ _

theorem diversity_ratio_bounds {cs : List ClusterStats} {c : ClusterStats} (hc : c ∈ cs) :
    0 ≤ (c.edge_diversity : ℚ) / (maxDiv cs : ℚ) ∧
    (c.edge_diversity : ℚ) / (maxDiv cs : ℚ) ≤ 1 := by
  have h1 : 1 ≤ maxDiv cs := le_max_left _ _
  have hpos : (0 : ℚ) < (maxDiv cs : ℚ) := by exact_mod_cast Nat.lt_of_lt_of_le Nat.zero_lt_one h1
  have hle : c.edge_diversity ≤ maxDiv cs := by
    calc c.edge_diversity ≤ listMax 0 (cs.map (·.edge_diversity)) :=
          mem_le_listMax 0 (List.mem_map.mpr ⟨c, hc, rfl⟩)
      _ ≤ maxDiv cs := le_max_right _ _
  constructor
  · exact div_nonneg (by positivity) (le_of_lt hpos)
  · rw [div_le_one hpos]
    exact_mod_cast hle

end ConfidenceLemmas

/-- C3: For every cluster scored by `compute_confidence_scores`, the
confidence score lies in `[0, 1]`; a cluster of size 1 scores exactly 1
with primary reason SINGLETON_NO_MATCH_REQUIRED; and for clusters of
size greater than 1 the score equals the rounded weighted sum
`round3(0.50·(edge_diversity/max_diversity) + 0.35·match_density
+ 0.15·1)` with `match_density = min 1 (edge_count/(cluster_size−1))`. -/
theorem compute_confidence_scores_spec (cs : List ClusterStats) (c : ClusterStats)
    (hc : c ∈ cs) :
    (0 ≤ confidence_score cs c ∧ confidence_score cs c ≤ 1) ∧
    (c.cluster_size = 1 →
      confidence_score cs c = 1 ∧ primary_reason c = "SINGLETON_NO_MATCH_REQUIRED") ∧
    (1 < c.cluster_size →
      confidence_score cs c
        = round3 (0.5 * ((c.edge_diversity : ℚ) / (maxDiv cs : ℚ))
            + 0.35 * min 1 ((c.edge_count : ℚ) / ((c.cluster_size : ℚ) - 1)) + 0.15 * 1)) := by
  refine ⟨?_, ?_, ?_⟩
  · unfold confidence_score
    split
    · exact ⟨by norm_num, by norm_num⟩
    · obtain ⟨hd0, hd1⟩ := diversity_ratio_bounds hc
      obtain ⟨hm0, hm1⟩ := matchDensity_bounds c
      exact round3_bounds (by linarith) (by linarith)
  · intro h1
    constructor
    · unfold confidence_score
      rw [if_pos h1]
    · unfold primary_reason
      rw [if_pos h1]
  · intro h1
    unfold confidence_score
    rw [if_neg (by omega)]
    unfold matchDensity
    rw [if_neg (by omega)]

/-- Witness for C3: the two-cluster fixture `sampleStats`; the theorem
applies to its singleton second cluster. -/
theorem compute_confidence_scores_spec_witness :
    singletonStat ∈ sampleStats ∧
    ((0 ≤ confidence_score sampleStats singletonStat ∧
      confidence_score sampleStats singletonStat ≤ 1) ∧
    (singletonStat.cluster_size = 1 →
      confidence_score sampleStats singletonStat = 1 ∧
      primary_reason singletonStat = "SINGLETON_NO_MATCH_REQUIRED") ∧
    (1 < singletonStat.cluster_size →
      confidence_score sampleStats singletonStat
        = round3 (0.5 * ((singletonStat.edge_diversity : ℚ) / (maxDiv sampleStats : ℚ))
          + 0.35 * min 1 ((singletonStat.edge_count : ℚ)
            / ((singletonStat.cluster_size : ℚ) - 1)) + 0.15 * 1))) :=
  ⟨by decide, compute_confidence_scores_spec sampleStats singletonStat (by decide)⟩

/-- C4: In fuzzy matching, for any two profile rows (clusters) in the
same valid block (shared non-null blocking-key value, block size within
the ceiling 10000) whose hashes are ordered `h a < h b`: a fuzzy edge
between them is kept exactly when the rule's score expression reaches
the threshold (inclusive comparison), the pair is scored exactly once —
the scored-pairs list is duplicate-free and contains the pair in hash
order only — and the reverse orientation is never compared. -/
theorem run_fuzzy_matching_threshold {γ β : Type} [DecidableEq γ] [LinearOrder β]
    (P : List γ) (bk : γ → Option String) (h : γ → β) (score : γ → γ → ℚ) (t : ℚ)
    (a b : γ) (hP : P.Nodup) (ha : a ∈ P) (hb : b ∈ P)
    (k : String) (hbka : bk a = some k) (hbkb : bk b = some k)
    (hblk : blockCount P bk k ≤ 10000) (hh : h a < h b) :
    ((a, b) ∈ fuzzy_edges P bk h score 10000 t ↔ t ≤ score a b) ∧
    (a, b, score a b) ∈ scoredPairs P bk h score 10000 ∧
    (scoredPairs P bk h score 10000).Nodup ∧
    (∀ s, (b, a, s) ∉ scoredPairs P bk h score 10000) := by
  have hsvb : sameValidBlock P bk 10000 a b = true := by
    unfold sameValidBlock
    rw [hbka]
    show (decide (bk b = some k) && decide (blockCount P bk k ≤ 10000)) = true
    simp [hbkb, hblk]
  have hmem : (a, b, score a b) ∈ scoredPairs P bk h score 10000 := by
    refine List.mem_map.mpr ⟨(a, b), List.mem_filter.mpr ⟨?_, ?_⟩, rfl⟩
    · exact List.pair_mem_product.mpr ⟨ha, hb⟩
    · show (sameValidBlock P bk 10000 a b && decide (h a < h b)) = true
      simp [hsvb, hh]
  have hnodup : (scoredPairs P bk h score 10000).Nodup := by
    refine List.Nodup.map ?_ (((hP.product hP).filter _))
    intro p q hpq
    have h1 : p.1 = q.1 := congrArg (fun z => z.1) hpq
    have h2 : p.2 = q.2 := congrArg (fun z => z.2.1) hpq
    exact Prod.ext h1 h2
  refine ⟨?_, hmem, hnodup, ?_⟩
  · constructor
    · intro hedge
      rcases List.mem_filterMap.mp hedge with ⟨q, hq, hif⟩
      rcases List.mem_map.mp hq with ⟨p, hpf, rfl⟩
      by_cases hts : t ≤ score p.1 p.2
      · rw [if_pos hts] at hif
        have hpair := Option.some.inj hif
        have hp1 : p.1 = a := congrArg (fun z => z.1) hpair
        have hp2 : p.2 = b := congrArg (fun z => z.2) hpair
        rw [hp1, hp2] at hts
        exact hts
      · rw [if_neg hts] at hif
        exact Option.noConfusion hif
    · intro hts
      exact List.mem_filterMap.mpr ⟨(a, b, score a b), hmem, if_pos hts⟩
  · intro s hmem'
    rcases List.mem_map.mp hmem' with ⟨p, hpf, heq⟩
    have hp1 : p.1 = b := congrArg (fun z => z.1) heq
    have hp2 : p.2 = a := congrArg (fun z => z.2.1) heq
    have hpred := (List.mem_filter.mp hpf).2
    have hlt : h p.1 < h p.2 := by
      have := (Bool.and_eq_true _ _).mp hpred
      exact of_decide_eq_true this.2
    rw [hp1, hp2] at hlt
    exact absurd hlt (lt_asymm hh)

/-- Witness for C4: two clusters in one block under an identity hash and
a constant score exactly at the threshold; the theorem applies and the
edge is kept. -/
theorem run_fuzzy_matching_threshold_witness :
    ([(1 : Nat), 2].Nodup) ∧ ((1 : Nat) ∈ [1, 2]) ∧ ((2 : Nat) ∈ [1, 2]) ∧
    ((fun _ : Nat => some "blk") 1 = some "blk") ∧
    ((fun _ : Nat => some "blk") 2 = some "blk") ∧
    (blockCount [(1 : Nat), 2] (fun _ => some "blk") "blk" ≤ 10000) ∧
    (id (1 : Nat) < id 2) ∧
    (((1 : Nat), (2 : Nat)) ∈
        fuzzy_edges [(1 : Nat), 2] (fun _ => some "blk") id (fun _ _ => (9 : ℚ) / 10)
          10000 ((9 : ℚ) / 10)
      ↔ (9 : ℚ) / 10 ≤ (fun _ _ => (9 : ℚ) / 10) 1 2) ∧
    ((1 : Nat), (2 : Nat), (fun _ _ => (9 : ℚ) / 10) 1 2) ∈
      scoredPairs [(1 : Nat), 2] (fun _ => some "blk") id (fun _ _ => (9 : ℚ) / 10) 10000 ∧
    (scoredPairs [(1 : Nat), 2] (fun _ => some "blk") id
      (fun _ _ => (9 : ℚ) / 10) 10000).Nodup ∧
    (∀ s, ((2 : Nat), (1 : Nat), s) ∉
      scoredPairs [(1 : Nat), 2] (fun _ => some "blk") id (fun _ _ => (9 : ℚ) / 10) 10000) :=
  ⟨by decide, by decide, by decide, rfl, rfl, by decide, by decide,
    (run_fuzzy_matching_threshold [1, 2] (fun _ => some "blk") id (fun _ _ => (9 : ℚ) / 10)
      ((9 : ℚ) / 10) 1 2 (by decide) (by decide) (by decide) "blk" rfl rfl
      (by decide) (by decide)).1,
    (run_fuzzy_matching_threshold [1, 2] (fun _ => some "blk") id (fun _ _ => (9 : ℚ) / 10)
      ((9 : ℚ) / 10) 1 2 (by decide) (by decide) (by decide) "blk" rfl rfl
      (by decide) (by decide)).2.1,
    (run_fuzzy_matching_threshold [1, 2] (fun _ => some "blk") id (fun _ _ => (9 : ℚ) / 10)
      ((9 : ℚ) / 10) 1 2 (by decide) (by decide) (by decide) "blk" rfl rfl
      (by decide) (by decide)).2.2.1,
    (run_fuzzy_matching_threshold [1, 2] (fun _ => some "blk") id (fun _ _ => (9 : ℚ) / 10)
      ((9 : ℚ) / 10) 1 2 (by decide) (by decide) (by decide) "blk" rfl rfl
      (by decide) (by decide)).2.2.2⟩

/-! Helper lemmas about the dangerous-pattern scanner. -/

section ValidatorLemmas

theorem space_not_word {c : Char} (h : isSpaceChar c = true) : isWordChar c = false := by
  unfold isSpaceChar at h
  simp only [Bool.or_eq_true, beq_iff_eq, or_assoc] at h
  rcases h with rfl | rfl | rfl | rfl | rfl | rfl <;> decide

theorem word_not_space {c : Char} (h : isWordChar c = true) : isSpaceChar c = false := by
  cases hs : isSpaceChar c
  · rfl
  · rw [space_not_word hs] at h
    cases h

theorem dropWhile_space_eq_nil {ws : List Char} (hws : ∀ x ∈ ws, isSpaceChar x = true) :
    List.dropWhile isSpaceChar ws = [] := by
  induction ws with
  | nil => rfl
  | cons c ws ih =>
      rw [List.dropWhile_cons, if_pos]
      · exact ih (fun x hx => hws x (List.mem_cons_of_mem c hx))
      · rw [hws c (List.mem_cons_self c ws)]

theorem dropWhile_space_append {ws l : List Char} (hws : ∀ x ∈ ws, isSpaceChar x = true) :
    List.dropWhile isSpaceChar (ws ++ l) = List.dropWhile isSpaceChar l := by
  induction ws with
  | nil => rfl
  | cons c ws ih =>
      show List.dropWhile isSpaceChar (c :: (ws ++ l)) = _
      rw [List.dropWhile_cons, if_pos]
      · exact ih (fun x hx => hws x (List.mem_cons_of_mem c hx))
      · rw [hws c (List.mem_cons_self c ws)]

theorem semiAt_cons (rest : List Char) :
    semiAt (';' :: rest)
      = (match List.dropWhile isSpaceChar rest with
         | [] => true
         | c :: _ => isWordChar c) := rfl

theorem semiAt_space_word {ws v : List Char} {c : Char}
    (hws : ∀ x ∈ ws, isSpaceChar x = true) (hc : isWordChar c = true) :
    semiAt (';' :: (ws ++ c :: v)) = true := by
  rw [semiAt_cons, dropWhile_space_append hws, List.dropWhile_cons,
    if_neg (by rw [word_not_space hc]; exact Bool.false_ne_true)]
  exact hc

theorem semiAt_trailing {ws : List Char} (hws : ∀ x ∈ ws, isSpaceChar x = true) :
    semiAt (';' :: ws) = true := by
  rw [semiAt_cons, dropWhile_space_eq_nil hws]

theorem hasDangerAux_append {t : List Char} (hne : t ≠ [])
    (hall : ∀ b : Bool, dangerAt b t = true) :
    ∀ (u : List Char) (pw : Bool), hasDangerAux pw (u ++ t) = true := by
  intro u
  induction u with
  | nil =>
      intro pw
      cases t with
      | nil => exact absurd rfl hne
      | cons c cs =>
          show (dangerAt pw (c :: cs) || hasDangerAux (isWordChar c) cs) = true
          rw [hall pw]
          rfl
  | cons d u ih =>
      intro pw
      show (dangerAt pw (d :: (u ++ t)) || hasDangerAux (isWordChar d) (u ++ t)) = true
      rw [ih (isWordChar d)]
      exact Bool.or_true _

theorem string_mk_ne_empty {l : List Char} (h : l ≠ []) : String.mk l ≠ "" := by
  intro he
  exact h (by simpa using congrArg String.data he)

theorem validate_sql_expr_rejects {s : String} (hne : s ≠ "") (hd : hasDanger s = true) :
    validate_sql_expr s = Except.error "Unsafe SQL detected" := by
  unfold validate_sql_expr
  rw [if_neg hne, if_pos hd]

theorem isRejected_of_hasDanger {s : String} (hne : s ≠ "") (hd : hasDanger s = true) :
    isRejected s = true := by
  unfold isRejected
  rw [validate_sql_expr_rejects hne hd]

end ValidatorLemmas

/-- C5 counterexample: the expression `"a; (b)"` contains the statement
terminator `;`, yet the validator accepts it and returns it unchanged —
the blocklist only fires on a semicolon followed (after optional
whitespace) by a word character or the end of the input, so the claim
that every expression containing a statement terminator is rejected is
false. -/
theorem validate_sql_expr_semicolon_counterexample :
    ';' ∈ "a; (b)".data ∧ validate_sql_expr "a; (b)" = Except.ok "a; (b)" :=
  ⟨by decide, rfl⟩

/-- C5 amended: the expression validator rejects any input matching its
dangerous-pattern blocklist — a semicolon followed, after optional
whitespace, by a word character or the end of the input, the comment
sequences `/*` or `*/`, `--` followed by a whitespace character, or one
of the DDL/DML keywords as a whole word (case-insensitively) — in
particular `"id; DROP TABLE users"` and `"DELETE FROM users"` are
rejected; and it returns every accepted expression unchanged, in
particular `"LOWER(email)"`. -/
theorem validate_sql_expr_amended :
    isRejected "id; DROP TABLE users" = true ∧
    validate_sql_expr "LOWER(email)" = Except.ok "LOWER(email)" ∧
    (∀ x y : String, validate_sql_expr x = Except.ok y → y = x) ∧
    (∀ u ws v : List Char, ∀ c : Char,
      (∀ x ∈ ws, isSpaceChar x = true) → isWordChar c = true →
      isRejected (String.mk (u ++ ';' :: (ws ++ c :: v))) = true) ∧
    (∀ u ws : List Char, (∀ x ∈ ws, isSpaceChar x = true) →
      isRejected (String.mk (u ++ ';' :: ws)) = true) ∧
    (∀ u v : List Char, isRejected (String.mk (u ++ '/' :: '*' :: v)) = true) ∧
    (∀ u v : List Char, isRejected (String.mk (u ++ '*' :: '/' :: v)) = true) ∧
    (∀ u v : List Char, ∀ c : Char, isSpaceChar c = true →
      isRejected (String.mk (u ++ '-' :: '-' :: c :: v)) = true) ∧
    isRejected "DELETE FROM users" = true := by
  refine ⟨by decide, rfl, ?_, ?_, ?_, ?_, ?_, ?_, by decide⟩
  · intro x y hxy
    unfold validate_sql_expr at hxy
    by_cases h1 : x = ""
    · rw [if_pos h1] at hxy
      exact Except.noConfusion hxy
    · rw [if_neg h1] at hxy
      by_cases h2 : hasDanger x = true
      · rw [if_pos h2] at hxy
        exact Except.noConfusion hxy
      · rw [if_neg h2] at hxy
        exact (Except.ok.inj hxy).symm
  · intro u ws v c hws hc
    refine isRejected_of_hasDanger (string_mk_ne_empty (by simp)) ?_
    show hasDangerAux false (u ++ ';' :: (ws ++ c :: v)) = true
    refine hasDangerAux_append (by simp) (fun b => ?_) u false
    unfold dangerAt
    rw [semiAt_space_word hws hc]
    rfl
  · intro u ws hws
    refine isRejected_of_hasDanger (string_mk_ne_empty (by simp)) ?_
    show hasDangerAux false (u ++ ';' :: ws) = true
    refine hasDangerAux_append (by simp) (fun b => ?_) u false
    unfold dangerAt
    rw [semiAt_trailing hws]
    rfl
  · intro u v
    refine isRejected_of_hasDanger (string_mk_ne_empty (by simp)) ?_
    show hasDangerAux false (u ++ '/' :: '*' :: v) = true
    refine hasDangerAux_append (by simp) (fun b => ?_) u false
    unfold dangerAt
    have hop : openCommentAt ('/' :: '*' :: v) = true := rfl
    rw [hop]
    simp
  · intro u v
    refine isRejected_of_hasDanger (string_mk_ne_empty (by simp)) ?_
    show hasDangerAux false (u ++ '*' :: '/' :: v) = true
    refine hasDangerAux_append (by simp) (fun b => ?_) u false
    unfold dangerAt
    have hcl : closeCommentAt ('*' :: '/' :: v) = true := rfl
    rw [hcl]
    simp
  · intro u v c hc
    refine isRejected_of_hasDanger (string_mk_ne_empty (by simp)) ?_
    show hasDangerAux false (u ++ '-' :: '-' :: c :: v) = true
    refine hasDangerAux_append (by simp) (fun b => ?_) u false
    unfold dangerAt
    have hcm : commentAt ('-' :: '-' :: c :: v) = isSpaceChar c := rfl
    rw [hcm, hc]
    simp

/-- Witness for C5 (amended): the universally quantified rejection
clauses instantiated at concrete inputs — a semicolon directly followed
by a word character, and an open-comment marker inside an expression. -/
theorem validate_sql_expr_amended_witness :
    ((∀ x ∈ ([' '] : List Char), isSpaceChar x = true) ∧ isWordChar 'D' = true ∧
      isRejected (String.mk (['i', 'd'] ++ ';' :: ([' '] ++ 'D' :: ['R', 'O', 'P']))) = true) ∧
    isRejected (String.mk (['i', 'd'] ++ '/' :: '*' :: ['x'])) = true :=
  ⟨⟨by decide, by decide,
      validate_sql_expr_amended.2.2.2.1 ['i', 'd'] [' '] ['R', 'O', 'P'] 'D'
        (by decide) (by decide)⟩,
    validate_sql_expr_amended.2.2.2.2.2.1 ['i', 'd'] ['x']⟩

/-- Witness for C2: the concrete EMAIL group `sampleRows` of three
members with `max_group_size` 10; the theorem applies with `k = 3`,
`m = 10`. -/
theorem build_edges_anchor_and_hub_safety_witness :
    ((groupRows sampleRows "EMAIL" "x").length = 3) ∧ (1 < 3) ∧
    (∀ r ∈ groupRows sampleRows "EMAIL" "x", r.max_group_size = 10) ∧
    ((groupRows sampleRows "EMAIL" "x").map (·.entity_key)).Nodup ∧
    (∃ a, anchorKey (groupRows sampleRows "EMAIL" "x") = some a ∧
      IsLeast {u | u ∈ (groupRows sampleRows "EMAIL" "x").map (·.entity_key)} a ∧
      (((3 : Nat) : Int) ≤ 10 →
        (edgesFor sampleRows "EMAIL" "x").map (·.left_entity_key)
            = ((groupRows sampleRows "EMAIL" "x").map (·.entity_key)).erase a ∧
        (∀ e ∈ edgesFor sampleRows "EMAIL" "x", e.right_entity_key = a) ∧
        (edgesFor sampleRows "EMAIL" "x").length = 3 - 1) ∧
      ((10 : Int) < ((3 : Nat) : Int) →
        edgesFor sampleRows "EMAIL" "x" = [] ∧
        { identifier_type := "EMAIL", identifier_value_norm := "x",
          group_size := ((3 : Nat) : Int), max_allowed := 10,
          reason := "EXCEEDED_MAX_GROUP_SIZE" } ∈ skipped_groups sampleRows)) :=
  ⟨by decide, by decide, by decide, by decide,
    build_edges_anchor_and_hub_safety sampleRows "EMAIL" "x" 3 10
      (by decide) (by decide) (by decide) (by decide)⟩


end IDR
